import Mathlib

/-!
Shallow embedding of the totp-sos library (`src/lib.rs`, `src/error.rs`) and
its external collaborators (the `sha1`/`sha2`/`hmac`, `base32`, `urlencoding`
and `url` crates, which the library calls), together with theorems settling
the specification claims.

Machine integers (`u8`, `u32`, `u64`, `usize`) are modelled as `Nat` with an
explicit `% 2^w` at every operation where the Rust release-mode wrapping
semantics matters.  Byte strings are `List Nat` with every element `< 256`.
A Rust function that can panic is modelled with an `Option` result where
`none` marks the panic.
-/

namespace Totp

/-- `2^32`, the modulus of `u32` arithmetic. -/
def M32 : Nat := 4294967296

/-- `2^64`, the modulus of `u64` arithmetic. -/
def M64 : Nat := 18446744073709551616

/-- 32-bit rotate left by `n` (for `x < 2^32`, `n ≤ 32`). -/
def rotl32 (n x : Nat) : Nat := ((x <<< n) % M32) ||| (x >>> (32 - n))

/-- 32-bit rotate right by `n` (for `x < 2^32`, `n ≤ 32`). -/
def rotr32 (n x : Nat) : Nat := (x >>> n) ||| ((x <<< (32 - n)) % M32)

/-- 64-bit rotate right by `n` (for `x < 2^64`, `n ≤ 64`). -/
def rotr64 (n x : Nat) : Nat := (x >>> n) ||| ((x <<< (64 - n)) % M64)

/-- The `k` big-endian bytes of `n`, most significant first; models Rust
`to_be_bytes` (with `k = 8` on a `u64` value). -/
def beBytes : Nat → Nat → List Nat
| 0, _ => []
| k + 1, n => n / 2 ^ (8 * k) % 256 :: beBytes k n

/-- Big-endian word from a byte list; models Rust `u32::from_be_bytes`
(on a 4-byte slice) and the word assembly inside the hash functions. -/
def beWord (l : List Nat) : Nat := l.foldl (fun a b => a * 256 + b) 0

/-- Split into chunks of `n` elements, fuel-based so the kernel can reduce it. -/
def chunksAux (n : Nat) : Nat → List α → List (List α)
| 0, _ => []
| _, [] => []
| fuel + 1, l => l.take n :: chunksAux n fuel (l.drop n)

/-- Split a list into chunks of `n` elements (last chunk possibly shorter). -/
def chunks (n : Nat) (l : List α) : List (List α) := chunksAux n l.length l

/-- Merkle–Damgård padding (FIPS 180-4): append `0x80`, zeros, and the bit
length as a big-endian `lenBytes`-byte integer, to a multiple of `blockLen`. -/
def mdPad (blockLen lenBytes : Nat) (msg : List Nat) : List Nat :=
  let z := (blockLen - (msg.length + 1 + lenBytes) % blockLen) % blockLen
  msg ++ 128 :: List.replicate z 0 ++ beBytes lenBytes (8 * msg.length)

/-- Five-word hash state (SHA-1). -/
abbrev St5 := Nat × Nat × Nat × Nat × Nat

/-- Eight-word hash state (SHA-256, SHA-512). -/
abbrev St8 := Nat × Nat × Nat × Nat × Nat × Nat × Nat × Nat

/-- SHA-1 round constants. -/
def sha1K (t : Nat) : Nat :=
  if t < 20 then 0x5A827999 else if t < 40 then 0x6ED9EBA1
  else if t < 60 then 0x8F1BBCDC else 0xCA62C1D6

/-- SHA-1 round function (`Ch`, `Parity`, `Maj`, `Parity`); `M32 - 1 - b`
is the 32-bit complement of `b`. -/
def sha1F (t b c d : Nat) : Nat :=
  if t < 20 then (b &&& c) ||| ((M32 - 1 - b) &&& d)
  else if t < 40 then (b ^^^ c) ^^^ d
  else if t < 60 then ((b &&& c) ||| (b &&& d)) ||| (c &&& d)
  else (b ^^^ c) ^^^ d

/-- SHA-1 message schedule: 80 words from the 16 block words. -/
def sha1Expand (w16 : List Nat) : List Nat :=
  (List.range 80).foldl (fun ws i =>
    if i < 16 then ws ++ [w16.getD i 0]
    else ws ++ [rotl32 1 (((ws.getD (i - 3) 0) ^^^ (ws.getD (i - 8) 0)) ^^^
                          ((ws.getD (i - 14) 0) ^^^ (ws.getD (i - 16) 0)))]) []

/-- SHA-1 compression of one 64-byte block. -/
def sha1Block (h : St5) (block : List Nat) : St5 :=
  let ws := sha1Expand ((chunks 4 block).map beWord)
  let s := ws.enum.foldl (fun st p =>
    let (a, b, c, d, e) := st
    let tmp := (rotl32 5 a + sha1F p.1 b c d + e + sha1K p.1 + p.2) % M32
    (tmp, a, rotl32 30 b, c, d)) h
  ((h.1 + s.1) % M32, (h.2.1 + s.2.1) % M32, (h.2.2.1 + s.2.2.1) % M32,
   (h.2.2.2.1 + s.2.2.2.1) % M32, (h.2.2.2.2 + s.2.2.2.2) % M32)

/-- SHA-1 of a byte string (20-byte digest); models the `sha1` crate used
through `hmac::Hmac<sha1::Sha1>`. -/
def sha1 (msg : List Nat) : List Nat :=
  let f := (chunks 64 (mdPad 64 8 msg)).foldl sha1Block
    (0x67452301, 0xEFCDAB89, 0x98BADCFE, 0x10325476, 0xC3D2E1F0)
  beBytes 4 f.1 ++ beBytes 4 f.2.1 ++ beBytes 4 f.2.2.1 ++
  beBytes 4 f.2.2.2.1 ++ beBytes 4 f.2.2.2.2

/-- SHA-256 round constants (FIPS 180-4 §4.2.2). -/
def sha256K : List Nat := [1116352408, 1899447441, 3049323471, 3921009573,
  961987163, 1508970993, 2453635748, 2870763221, 3624381080, 310598401,
  607225278, 1426881987, 1925078388, 2162078206, 2614888103, 3248222580,
  3835390401, 4022224774, 264347078, 604807628, 770255983, 1249150122,
  1555081692, 1996064986, 2554220882, 2821834349, 2952996808, 3210313671,
  3336571891, 3584528711, 113926993, 338241895, 666307205, 773529912,
  1294757372, 1396182291, 1695183700, 1986661051, 2177026350, 2456956037,
  2730485921, 2820302411, 3259730800, 3345764771, 3516065817, 3600352804,
  4094571909, 275423344, 430227734, 506948616, 659060556, 883997877,
  958139571, 1322822218, 1537002063, 1747873779, 1955562222, 2024104815,
  2227730452, 2361852424, 2428436474, 2756734187, 3204031479, 3329325298]

/-- SHA-256 message schedule: 64 words from the 16 block words. -/
def sha256Expand (w16 : List Nat) : List Nat :=
  (List.range 64).foldl (fun ws i =>
    if i < 16 then ws ++ [w16.getD i 0]
    else
      let w15 := ws.getD (i - 15) 0
      let w2 := ws.getD (i - 2) 0
      let s0 := (rotr32 7 w15 ^^^ rotr32 18 w15) ^^^ (w15 >>> 3)
      let s1 := (rotr32 17 w2 ^^^ rotr32 19 w2) ^^^ (w2 >>> 10)
      ws ++ [(ws.getD (i - 16) 0 + s0 + ws.getD (i - 7) 0 + s1) % M32]) []

/-- SHA-256 compression of one 64-byte block. -/
def sha256Block (h : St8) (block : List Nat) : St8 :=
  let ws := sha256Expand ((chunks 4 block).map beWord)
  let s := (ws.zip sha256K).foldl (fun st p =>
    let (a, b, c, d, e, f, g, hh) := st
    let s1 := (rotr32 6 e ^^^ rotr32 11 e) ^^^ rotr32 25 e
    let ch := (e &&& f) ^^^ ((M32 - 1 - e) &&& g)
    let t1 := (hh + s1 + ch + p.2 + p.1) % M32
    let s0 := (rotr32 2 a ^^^ rotr32 13 a) ^^^ rotr32 22 a
    let mj := ((a &&& b) ^^^ (a &&& c)) ^^^ (b &&& c)
    let t2 := (s0 + mj) % M32
    ((t1 + t2) % M32, a, b, c, (d + t1) % M32, e, f, g)) h
  ((h.1 + s.1) % M32, (h.2.1 + s.2.1) % M32, (h.2.2.1 + s.2.2.1) % M32,
   (h.2.2.2.1 + s.2.2.2.1) % M32, (h.2.2.2.2.1 + s.2.2.2.2.1) % M32,
   (h.2.2.2.2.2.1 + s.2.2.2.2.2.1) % M32,
   (h.2.2.2.2.2.2.1 + s.2.2.2.2.2.2.1) % M32,
   (h.2.2.2.2.2.2.2 + s.2.2.2.2.2.2.2) % M32)

/-- SHA-256 of a byte string (32-byte digest); models the `sha2` crate used
through `hmac::Hmac<sha2::Sha256>`. -/
def sha256 (msg : List Nat) : List Nat :=
  let f := (chunks 64 (mdPad 64 8 msg)).foldl sha256Block
    (1779033703, 3144134277, 1013904242, 2773480762,
     1359893119, 2600822924, 528734635, 1541459225)
  beBytes 4 f.1 ++ beBytes 4 f.2.1 ++ beBytes 4 f.2.2.1 ++
  beBytes 4 f.2.2.2.1 ++ beBytes 4 f.2.2.2.2.1 ++ beBytes 4 f.2.2.2.2.2.1 ++
  beBytes 4 f.2.2.2.2.2.2.1 ++ beBytes 4 f.2.2.2.2.2.2.2

/-- SHA-512 round constants (FIPS 180-4 §4.2.3). -/
def sha512K : List Nat := [4794697086780616226, 8158064640168781261,
  13096744586834688815, 16840607885511220156, 4131703408338449720,
  6480981068601479193, 10538285296894168987, 12329834152419229976,
  15566598209576043074, 1334009975649890238, 2608012711638119052,
  6128411473006802146, 8268148722764581231, 9286055187155687089,
  11230858885718282805, 13951009754708518548, 16472876342353939154,
  17275323862435702243, 1135362057144423861, 2597628984639134821,
  3308224258029322869, 5365058923640841347, 6679025012923562964,
  8573033837759648693, 10970295158949994411, 12119686244451234320,
  12683024718118986047, 13788192230050041572, 14330467153632333762,
  15395433587784984357, 489312712824947311, 1452737877330783856,
  2861767655752347644, 3322285676063803686, 5560940570517711597,
  5996557281743188959, 7280758554555802590, 8532644243296465576,
  9350256976987008742, 10552545826968843579, 11727347734174303076,
  12113106623233404929, 14000437183269869457, 14369950271660146224,
  15101387698204529176, 15463397548674623760, 17586052441742319658,
  1182934255886127544, 1847814050463011016, 2177327727835720531,
  2830643537854262169, 3796741975233480872, 4115178125766777443,
  5681478168544905931, 6601373596472566643, 7507060721942968483,
  8399075790359081724, 8693463985226723168, 9568029438360202098,
  10144078919501101548, 10430055236837252648, 11840083180663258601,
  13761210420658862357, 14299343276471374635, 14566680578165727644,
  15097957966210449927, 16922976911328602910, 17689382322260857208,
  500013540394364858, 748580250866718886, 1242879168328830382,
  1977374033974150939, 2944078676154940804, 3659926193048069267,
  4368137639120453308, 4836135668995329356, 5532061633213252278,
  6448918945643986474, 6902733635092675308, 7801388544844847127]

/-- SHA-512 message schedule: 80 words from the 16 block words. -/
def sha512Expand (w16 : List Nat) : List Nat :=
  (List.range 80).foldl (fun ws i =>
    if i < 16 then ws ++ [w16.getD i 0]
    else
      let w15 := ws.getD (i - 15) 0
      let w2 := ws.getD (i - 2) 0
      let s0 := (rotr64 1 w15 ^^^ rotr64 8 w15) ^^^ (w15 >>> 7)
      let s1 := (rotr64 19 w2 ^^^ rotr64 61 w2) ^^^ (w2 >>> 6)
      ws ++ [(ws.getD (i - 16) 0 + s0 + ws.getD (i - 7) 0 + s1) % M64]) []

/-- SHA-512 compression of one 128-byte block. -/
def sha512Block (h : St8) (block : List Nat) : St8 :=
  let ws := sha512Expand ((chunks 8 block).map beWord)
  let s := (ws.zip sha512K).foldl (fun st p =>
    let (a, b, c, d, e, f, g, hh) := st
    let s1 := (rotr64 14 e ^^^ rotr64 18 e) ^^^ rotr64 41 e
    let ch := (e &&& f) ^^^ ((M64 - 1 - e) &&& g)
    let t1 := (hh + s1 + ch + p.2 + p.1) % M64
    let s0 := (rotr64 28 a ^^^ rotr64 34 a) ^^^ rotr64 39 a
    let mj := ((a &&& b) ^^^ (a &&& c)) ^^^ (b &&& c)
    let t2 := (s0 + mj) % M64
    ((t1 + t2) % M64, a, b, c, (d + t1) % M64, e, f, g)) h
  ((h.1 + s.1) % M64, (h.2.1 + s.2.1) % M64, (h.2.2.1 + s.2.2.1) % M64,
   (h.2.2.2.1 + s.2.2.2.1) % M64, (h.2.2.2.2.1 + s.2.2.2.2.1) % M64,
   (h.2.2.2.2.2.1 + s.2.2.2.2.2.1) % M64,
   (h.2.2.2.2.2.2.1 + s.2.2.2.2.2.2.1) % M64,
   (h.2.2.2.2.2.2.2 + s.2.2.2.2.2.2.2) % M64)

/-- SHA-512 of a byte string (64-byte digest); models the `sha2` crate used
through `hmac::Hmac<sha2::Sha512>`. -/
def sha512 (msg : List Nat) : List Nat :=
  let f := (chunks 128 (mdPad 128 16 msg)).foldl sha512Block
    (7640891576956012808, 13503953896175478587, 4354685564936845355,
     11912009170470909681, 5840696475078001361, 11170449401992604703,
     2270897969802886507, 6620516959819538809)
  beBytes 8 f.1 ++ beBytes 8 f.2.1 ++ beBytes 8 f.2.2.1 ++
  beBytes 8 f.2.2.2.1 ++ beBytes 8 f.2.2.2.2.1 ++ beBytes 8 f.2.2.2.2.2.1 ++
  beBytes 8 f.2.2.2.2.2.2.1 ++ beBytes 8 f.2.2.2.2.2.2.2

/-- HMAC (RFC 2104) over the given hash with the given block size; models the
`hmac` crate.  A key longer than the block is hashed first, then the key is
zero-padded to the block size. -/
def hmac (hash : List Nat → List Nat) (blockSize : Nat)
    (key msg : List Nat) : List Nat :=
  let k0 := if blockSize < key.length then hash key else key
  let k := k0 ++ List.replicate (blockSize - k0.length) 0
  hash ((k.map (fun b => b ^^^ 0x5c)) ++ hash ((k.map (fun b => b ^^^ 0x36)) ++ msg))

/-- `Algorithm` from `src/lib.rs`: the three supported HMAC hash functions. -/
inductive Algorithm
| SHA1
| SHA256
| SHA512
deriving DecidableEq

/-- `Algorithm::sign` from `src/lib.rs`: keyed MAC of `data` under `key`. -/
def Algorithm.sign : Algorithm → List Nat → List Nat → List Nat
| .SHA1, key, data => hmac sha1 64 key data
| .SHA256, key, data => hmac sha256 64 key data
| .SHA512, key, data => hmac sha512 128 key data

/-- `Display` for `Algorithm` from `src/lib.rs`. -/
def Algorithm.name : Algorithm → String
| .SHA1 => "SHA1"
| .SHA256 => "SHA256"
| .SHA512 => "SHA512"

/-- `Error` from `src/error.rs`.  `Url` stands for the `url::ParseError`
payload of the transparent `Url` variant; the `Time` variant (clock failure)
is carried for completeness. -/
inductive Error
| Secret (s : String)
| IssuerMismatch (a b : String)
| Issuer (s : String)
| Step (s : String)
| Digits (s : String)
| Algorithm (s : String)
| AccountName (s : String)
| IssuerDecoding (s : String)
| Host (s : String)
| Scheme (s : String)
| SecretTooSmall (bits : Nat)
| InvalidDigits (digits : Nat)
| Url
| Time
deriving DecidableEq

deriving instance DecidableEq for Except

/-- `TOTP` from `src/lib.rs`.  `digits` is `usize`, `skew` is `u8`, `step`
is `u64`; `secret` is a byte string. -/
structure TOTP where
  algorithm : Algorithm
  digits : Nat
  skew : Nat
  step : Nat
  secret : List Nat
  account_name : String
  issuer : Option String
deriving DecidableEq

/-- `TOTP::new` from `src/lib.rs`: the validating constructor.  The colon
checks model Rust `String::contains(':')` on the character sequence. -/
def TOTP.new (algorithm : Algorithm) (digits skew step : Nat)
    (secret : List Nat) (account_name : String) (issuer : Option String) :
    Except Error TOTP :=
  if ¬ (6 ≤ digits ∧ digits ≤ 8) then .error (.InvalidDigits digits)
  else if secret.length < 16 then .error (.SecretTooSmall (secret.length * 8))
  else if account_name.data.contains ':' then .error (.AccountName account_name)
  else match issuer with
  | some i =>
    if i.data.contains ':' then .error (.Issuer i)
    else .ok ⟨algorithm, digits, skew, step, secret, account_name, issuer⟩
  | none => .ok ⟨algorithm, digits, skew, step, secret, account_name, issuer⟩

/-- `TOTP::sign` from `src/lib.rs`: MAC of the 8 big-endian bytes of the
step counter `time / step`. -/
def TOTP.sign (t : TOTP) (time : Nat) : List Nat :=
  t.algorithm.sign t.secret (beBytes 8 (time / t.step))

/-- Decimal digit character. -/
def digitChr (n : Nat) : Char := "0123456789".data.getD n '0'

/-- Decimal digit characters of `n`, fuel-based so the kernel can reduce it;
`natToStr` supplies enough fuel. -/
def natDigitsAux : Nat → Nat → List Char
| 0, _ => []
| fuel + 1, n =>
  if n < 10 then [digitChr n]
  else natDigitsAux fuel (n / 10) ++ [digitChr (n % 10)]

/-- Decimal rendering of a natural number; models Rust `Display` for
unsigned integers. -/
def natToStr (n : Nat) : String := String.mk (natDigitsAux (n + 1) n)

/-- Left-pad with `'0'` to width `w`; models the Rust format spec `{:0w$}`
applied to an unsigned integer already rendered as `s`. -/
def padLeft (w : Nat) (s : String) : String :=
  String.mk (List.replicate (w - s.length) '0' ++ s.data)

/-- `TOTP::generate` from `src/lib.rs`: RFC 4226 dynamic truncation of the
MAC.  `10 ^ digits % M32` models `10_u32.pow(digits as u32)`. -/
def TOTP.generate (t : TOTP) (time : Nat) : String :=
  let result := t.sign time
  let offset := (result.getLastD 0) &&& 15
  let value := beWord ((result.drop offset).take 4) &&& 0x7fffffff
  padLeft t.digits (natToStr (value % (10 ^ t.digits % M32)))

/-- `TOTP::next_step` from `src/lib.rs`: first second of the following step. -/
def TOTP.next_step (t : TOTP) (time : Nat) : Nat :=
  (time / t.step + 1) * t.step

/-- Wrapping `u64` subtraction `a - b` (for `a < 2^64`), as performed by
`time / self.step - (self.skew as u64)` in release mode. -/
def wsub64 (a b : Nat) : Nat := (a + (M64 - b % M64)) % M64

/-- `TOTP::check` from `src/lib.rs`.  The loop bound `self.skew * 2 + 1` is
`u8` arithmetic, hence the `% 256`; the candidate-time arithmetic is
wrapping `u64`.  The token comparison `constant_time_eq` is byte equality,
which on UTF-8 strings coincides with string equality. -/
def TOTP.check (t : TOTP) (token : String) (time : Nat) : Bool :=
  let basestep := wsub64 (time / t.step) t.skew
  (List.range ((t.skew * 2 % 256 + 1) % 256)).any
    (fun i => t.generate ((basestep + i) % M64 * t.step % M64) == token)

/-- The `PartialEq` impl for `TOTP` from `src/lib.rs`:
`constant_time_eq(self.secret, other.secret)`, i.e. byte equality of the
secrets only. -/
def totpEq (a b : TOTP) : Bool := a.secret == b.secret

/-- RFC 4648 base32 alphabet character for a 5-bit value; models the
`base32` crate's `RFC4648_ALPHABET`. -/
def b32chr (v : Nat) : Char := "ABCDEFGHIJKLMNOPQRSTUVWXYZ234567".data.getD v 'A'

/-- The 5-bit values emitted by the `base32` crate's RFC 4648 encoder: the
input is processed in 5-byte groups (the last group zero-padded), each group
yielding 8 values, truncated for an unpadded final group of `r` bytes to
`ceil(8*r/5)` values (2, 4, 5 or 7). -/
def encVals : List Nat → List Nat
| [] => []
| [b0] =>
  [(b0 &&& 248) >>> 3, (b0 &&& 7) <<< 2]
| [b0, b1] =>
  [(b0 &&& 248) >>> 3, ((b0 &&& 7) <<< 2) ||| ((b1 &&& 192) >>> 6),
   (b1 &&& 62) >>> 1, (b1 &&& 1) <<< 4]
| [b0, b1, b2] =>
  [(b0 &&& 248) >>> 3, ((b0 &&& 7) <<< 2) ||| ((b1 &&& 192) >>> 6),
   (b1 &&& 62) >>> 1, ((b1 &&& 1) <<< 4) ||| ((b2 &&& 240) >>> 4),
   (b2 &&& 15) <<< 1]
| [b0, b1, b2, b3] =>
  [(b0 &&& 248) >>> 3, ((b0 &&& 7) <<< 2) ||| ((b1 &&& 192) >>> 6),
   (b1 &&& 62) >>> 1, ((b1 &&& 1) <<< 4) ||| ((b2 &&& 240) >>> 4),
   ((b2 &&& 15) <<< 1) ||| (b3 >>> 7), (b3 &&& 124) >>> 2,
   (b3 &&& 3) <<< 3]
| b0 :: b1 :: b2 :: b3 :: b4 :: rest =>
  (b0 &&& 248) >>> 3 :: (((b0 &&& 7) <<< 2) ||| ((b1 &&& 192) >>> 6)) ::
  (b1 &&& 62) >>> 1 :: (((b1 &&& 1) <<< 4) ||| ((b2 &&& 240) >>> 4)) ::
  (((b2 &&& 15) <<< 1) ||| (b3 >>> 7)) :: (b3 &&& 124) >>> 2 ::
  (((b3 &&& 3) <<< 3) ||| ((b4 &&& 224) >>> 5)) :: (b4 &&& 31) ::
  encVals rest

/-- Unpadded RFC 4648 base32 encoding; models
`base32::encode(Alphabet::RFC4648 { padding: false }, _)`. -/
def b32encode (bs : List Nat) : List Char := (encVals bs).map b32chr

/-- `TOTP::to_secret_base32` from `src/lib.rs`. -/
def TOTP.to_secret_base32 (t : TOTP) : String := String.mk (b32encode t.secret)

/-- The `base32` crate's `RFC4648_INV_ALPHABET`, indexed by `byte - 48`:
`'2'..'7'` map to 26..31, `'='` (index 13) to 0, `'A'..'Z'` to 0..25,
everything else is invalid. -/
def b32invTable : List (Option Nat) :=
  [none, none, some 26, some 27, some 28, some 29, some 30, some 31,
   none, none, none, none, none, some 0, none, none, none,
   some 0, some 1, some 2, some 3, some 4, some 5, some 6, some 7,
   some 8, some 9, some 10, some 11, some 12, some 13, some 14, some 15,
   some 16, some 17, some 18, some 19, some 20, some 21, some 22, some 23,
   some 24, some 25]

/-- ASCII uppercasing of a byte; models `u8::to_ascii_uppercase`. -/
def asciiUpper (b : Nat) : Nat := if 97 ≤ b ∧ b ≤ 122 then b - 32 else b

/-- 5-bit value of one base32 character (case-insensitive, `'='` → 0),
`none` for a character outside the table; models the decoder's
`alphabet.get(c.to_ascii_uppercase().wrapping_sub(b'0'))` lookup. -/
def b32charVal (c : Char) : Option Nat :=
  let b := asciiUpper c.toNat
  if b < 48 then none else b32invTable.getD (b - 48) none

/-- Reassemble bytes from 5-bit values, 8 values per group (the final
partial group zero-padded to 8), 5 bytes per group; each `<<<` result is
reduced `% 256` as the crate's `u8` shifts are.  Models the byte-emitting
loop of `base32::decode`. -/
def b32decVals : List Nat → List Nat
| [] => []
| v0 :: v1 :: v2 :: v3 :: v4 :: v5 :: v6 :: v7 :: rest =>
  (((v0 <<< 3) % 256) ||| (v1 >>> 2)) ::
  ((((v1 <<< 6) % 256) ||| ((v2 <<< 1) % 256)) ||| (v3 >>> 4)) ::
  (((v3 <<< 4) % 256) ||| (v4 >>> 1)) ::
  ((((v4 <<< 7) % 256) ||| ((v5 <<< 2) % 256)) ||| (v6 >>> 3)) ::
  (((v6 <<< 5) % 256) ||| v7) :: b32decVals rest
| vs =>
  [((vs.getD 0 0 <<< 3) % 256) ||| (vs.getD 1 0 >>> 2),
   (((vs.getD 1 0 <<< 6) % 256) ||| ((vs.getD 2 0 <<< 1) % 256)) ||| (vs.getD 3 0 >>> 4),
   ((vs.getD 3 0 <<< 4) % 256) ||| (vs.getD 4 0 >>> 1),
   (((vs.getD 4 0 <<< 7) % 256) ||| ((vs.getD 5 0 <<< 2) % 256)) ||| (vs.getD 6 0 >>> 3),
   ((vs.getD 6 0 <<< 5) % 256) ||| vs.getD 7 0]

/-- Number of trailing `'='` characters. -/
def trailingEqCount (cs : List Char) : Nat :=
  (cs.reverse.takeWhile (fun c => c == '=')).length

/-- Unpadded RFC 4648 base32 decoding; models
`base32::decode(Alphabet::RFC4648 { padding: false }, _)`: the input must be
ASCII and every character in the (case-insensitive) table; up to 6 trailing
`'='` are excluded from the length used to truncate the output. -/
def b32decode (s : String) : Option (List Nat) :=
  let cs := s.data
  if cs.all (fun c => c.toNat < 128) then
    match cs.mapM b32charVal with
    | none => none
    | some vals =>
      let unpadded := cs.length - min 6 (trailingEqCount cs)
      some ((b32decVals vals).take (unpadded * 5 / 8))
  else none

/-- `TOTP::from_secret_base32` from `src/lib.rs`. -/
def TOTP.from_secret_base32 (s : String) : Except Error TOTP :=
  match b32decode s with
  | none => .error (.Secret s)
  | some buffer => TOTP.new .SHA1 6 1 30 buffer "" none

/-- Bytes left untouched by `urlencoding::encode`: ASCII alphanumerics and
`-`, `.`, `_`, `~`. -/
def isUnreservedByte (b : Nat) : Bool :=
  (48 ≤ b && b ≤ 57) || (65 ≤ b && b ≤ 90) || (97 ≤ b && b ≤ 122) ||
  b == 45 || b == 46 || b == 95 || b == 126

/-- Uppercase hexadecimal digit character. -/
def hexUpper (n : Nat) : Char := "0123456789ABCDEF".data.getD n '0'

/-- Percent-encoding of one character; models `urlencoding::encode`
byte-wise (faithful for single-byte characters; the library's own inputs of
interest are ASCII). -/
def pctEncodeChar (c : Char) : List Char :=
  if isUnreservedByte c.toNat then [c]
  else ['%', hexUpper (c.toNat / 16 % 16), hexUpper (c.toNat % 16)]

/-- Percent-encoding of a string; models `urlencoding::encode`. -/
def pctEncode (s : String) : String := String.mk (s.data.flatMap pctEncodeChar)

/-- Value of a hexadecimal digit character. -/
def hexVal (c : Char) : Option Nat :=
  if 48 ≤ c.toNat ∧ c.toNat ≤ 57 then some (c.toNat - 48)
  else if 65 ≤ c.toNat ∧ c.toNat ≤ 70 then some (c.toNat - 55)
  else if 97 ≤ c.toNat ∧ c.toNat ≤ 102 then some (c.toNat - 87)
  else none

/-- Percent-decoding; models `urlencoding::decode`: `%XX` becomes the byte
`XX`, malformed `%` sequences are copied literally, and the function fails
(`none`) only when the decoded bytes are not valid UTF-8 — modelled here as
failing on any decoded byte `≥ 128` (a lone such byte is invalid UTF-8;
multi-byte sequences are outside this ASCII-level model). -/
def pctDecodeL : List Char → Option (List Char)
| [] => some []
| '%' :: h1 :: h2 :: rest =>
  match hexVal h1, hexVal h2 with
  | some a, some b =>
    if a * 16 + b < 128 then
      (pctDecodeL rest).map (fun l => Char.ofNat (a * 16 + b) :: l)
    else none
  | _, _ => (pctDecodeL (h1 :: h2 :: rest)).map (fun l => '%' :: l)
| ['%', h1] => some ['%', h1]
| ['%'] => some ['%']
| c :: rest => (pctDecodeL rest).map (fun l => c :: l)

/-- Lossy decoding of one query component; models the percent- and
plus-decoding performed by `url::Url::query_pairs` (invalid UTF-8 bytes
become U+FFFD). -/
def queryDecodeL : List Char → List Char
| [] => []
| '+' :: rest => ' ' :: queryDecodeL rest
| '%' :: h1 :: h2 :: rest =>
  match hexVal h1, hexVal h2 with
  | some a, some b =>
    (if a * 16 + b < 128 then Char.ofNat (a * 16 + b) else Char.ofNat 65533) ::
    queryDecodeL rest
  | _, _ => '%' :: queryDecodeL (h1 :: h2 :: rest)
| c :: rest => c :: queryDecodeL rest

/-- Split at every occurrence of `sep` (keeping empty segments). -/
def splitSep (sep : Char) : List Char → List (List Char)
| [] => [[]]
| c :: rest =>
  if c = sep then [] :: splitSep sep rest
  else match splitSep sep rest with
  | [] => [[c]]
  | s :: ss => (c :: s) :: ss

/-- Key/value pairs of a query string; models `url::Url::query_pairs`:
split on `&`, drop empty segments, split each segment at the first `=`
(missing `=` means an empty value), percent- and plus-decode both sides. -/
def queryPairs (q : List Char) : List (String × String) :=
  ((splitSep '&' q).filter (fun seg => seg ≠ [])).map (fun seg =>
    (String.mk (queryDecodeL (seg.takeWhile (fun c => c != '='))),
     String.mk (queryDecodeL ((seg.dropWhile (fun c => c != '=')).drop 1))))

/-- The parts of a parsed URL that `TOTP::from_url` consumes: scheme, host
(`none` when the URL has no host, as for `otpauth:foo`), serialized path,
and decoded query pairs. -/
structure OtpUrl where
  scheme : String
  host : Option String
  path : String
  query : List (String × String)

/-- Model of `url::Url::parse` restricted to the shapes relevant here: the
scheme runs to the first `:`; `//` introduces an authority whose host runs
to the next `/` or `?`; otherwise the URL has no host and an opaque path;
the query follows the first `?`.  Fragments, userinfo, ports and the
crate's normalizations beyond this are outside the model. -/
def parseUrl (s : String) : Option OtpUrl :=
  let cs := s.data
  let scheme := cs.takeWhile (fun c => c != ':')
  match cs.dropWhile (fun c => c != ':') with
  | ':' :: rest =>
    if scheme = [] then none
    else if rest.take 2 = ['/', '/'] then
      let rest2 := rest.drop 2
      let host := rest2.takeWhile (fun c => c != '/' && c != '?')
      let rest3 := rest2.dropWhile (fun c => c != '/' && c != '?')
      let path := rest3.takeWhile (fun c => c != '?')
      let query := (rest3.dropWhile (fun c => c != '?')).drop 1
      some ⟨String.mk scheme, some (String.mk host), String.mk path,
            queryPairs query⟩
    else
      let path := rest.takeWhile (fun c => c != '?')
      let query := (rest.dropWhile (fun c => c != '?')).drop 1
      some ⟨String.mk scheme, none, String.mk path, queryPairs query⟩
  | _ => none

/-- `usize`/`u64` parsing; models `str::parse::<usize>` / `::<u64>` on a
64-bit target: optional leading `+`, at least one digit, all digits, and
the value must fit in 64 bits. -/
def parseNat64 (s : String) : Option Nat :=
  let cs := match s.data with
    | '+' :: rest => rest
    | cs => cs
  if cs = [] then none
  else if cs.all (fun c => c.isDigit) then
    let v := cs.foldl (fun a c => a * 10 + (c.toNat - 48)) 0
    if v < M64 then some v else none
  else none

/-- The mutable locals of `TOTP::from_url`'s query loop. -/
structure UrlParams where
  algorithm : Algorithm
  digits : Nat
  step : Nat
  secret : List Nat
  issuer : Option String
deriving DecidableEq

/-- One iteration of `TOTP::from_url`'s query loop (`src/lib.rs` lines
356–399). -/
def applyParam (st : UrlParams) (kv : String × String) : Except Error UrlParams :=
  if kv.1 = "algorithm" then
    match kv.2 with
    | "SHA1" => .ok { st with algorithm := .SHA1 }
    | "SHA256" => .ok { st with algorithm := .SHA256 }
    | "SHA512" => .ok { st with algorithm := .SHA512 }
    | _ => .error (.Algorithm kv.2)
  else if kv.1 = "digits" then
    match parseNat64 kv.2 with
    | some d => .ok { st with digits := d }
    | none => .error (.Digits kv.2)
  else if kv.1 = "period" then
    match parseNat64 kv.2 with
    | some p => .ok { st with step := p }
    | none => .error (.Step kv.2)
  else if kv.1 = "secret" then
    match b32decode kv.2 with
    | some b => .ok { st with secret := b }
    | none => .error (.Secret kv.2)
  else if kv.1 = "issuer" then
    match st.issuer with
    | some i =>
      if kv.2 ≠ i then .error (.IssuerMismatch i kv.2)
      else .ok { st with issuer := some kv.2 }
    | none => .ok { st with issuer := some kv.2 }
  else .ok st

/-- `TOTP::from_url`'s query loop with its early returns. -/
def foldParams : List (String × String) → UrlParams → Except Error UrlParams
| [], st => .ok st
| kv :: rest, st =>
  match applyParam st kv with
  | .ok st2 => foldParams rest st2
  | .error e => .error e

/-- Percent-decoding of the label issuer (`src/lib.rs` lines 341–346):
`none` means no label issuer. -/
def decodeLabelIssuer : Option (List Char) → Except Error (Option String)
| none => .ok none
| some l =>
  match pctDecodeL l with
  | none => .error (.IssuerDecoding (String.mk l))
  | some d => .ok (some (String.mk d))

/-- The body of `TOTP::from_url` after the scheme and host checks
(`src/lib.rs` lines 332–405): label split, percent-decoding, query loop,
empty-secret check, and the validating constructor with `skew = 1`. -/
def TOTP.from_url_body (u : OtpUrl) : Except Error TOTP :=
  let path := u.path.data.dropWhile (fun c => c == '/')
  let hasColon := path.contains ':'
  let li := if hasColon then some (path.takeWhile (fun c => c != ':')) else none
  let accountRaw :=
    if hasColon then
      ((path.dropWhile (fun c => c != ':')).drop 1).dropWhile (fun c => c == ':')
    else path
  match decodeLabelIssuer li with
  | .error e => .error e
  | .ok issuer1 =>
    match pctDecodeL accountRaw with
    | none => .error (.AccountName (String.mk accountRaw))
    | some acc =>
      match foldParams u.query ⟨.SHA1, 6, 30, [], issuer1⟩ with
      | .error e => .error e
      | .ok st =>
        if st.secret = [] then .error (.Secret "")
        else TOTP.new st.algorithm st.digits 1 st.step st.secret
          (String.mk acc) st.issuer

/-- `TOTP::from_url` on a parsed URL (`src/lib.rs` lines 325–405).  The
result `none` models a panic: when `url.host()` is `None` the guard
`url.host() != Some(Host::Domain("totp"))` is taken and the error arm
evaluates `url.host().unwrap()`, which panics. -/
def TOTP.from_url_core (u : OtpUrl) : Option (Except Error TOTP) :=
  if u.scheme ≠ "otpauth" then some (.error (.Scheme u.scheme))
  else match u.host with
  | none => none
  | some h =>
    if h ≠ "totp" then some (.error (.Host h))
    else some (TOTP.from_url_body u)

/-- `TOTP::from_url` from a string (`src/lib.rs` line 322): URL parse
failure becomes the transparent `Url` error; `none` models a panic. -/
def TOTP.from_url (s : String) : Option (Except Error TOTP) :=
  match parseUrl s with
  | none => some (.error .Url)
  | some u => TOTP.from_url_core u

/-- `TOTP::get_url` from `src/lib.rs` (lines 414–432). -/
def TOTP.get_url (t : TOTP) : String :=
  let account_name := pctEncode t.account_name
  let label :=
    match t.issuer with
    | some i =>
      let issuer := pctEncode i
      issuer ++ ":" ++ account_name ++ "?issuer=" ++ issuer ++ "&"
    | none => account_name ++ "?"
  "otpauth://totp/" ++ label ++ "secret=" ++ t.to_secret_base32 ++
    "&digits=" ++ natToStr t.digits ++ "&algorithm=" ++ t.algorithm.name

/-- The shared secret of the repository's test suite: the ASCII bytes of
`"TestSecretSuperSecret"`. -/
def testSecret : List Nat := "TestSecretSuperSecret".data.map Char.toNat

/-- RFC 4226 §5.3 dynamic truncation as the specification words it, for
comparison with `TOTP.generate`: `offset` is the low nibble of the last MAC
byte; the four MAC bytes from `offset` are read as a big-endian 32-bit
integer whose sign bit is cleared; the code is that value mod `10^digits`,
rendered in decimal and left-padded with zeros to `digits` characters. -/
def dynamicTruncationSpec (digits : Nat) (mac : List Nat) : String :=
  let offset := mac.getLastD 0 % 16
  let value := mac.getD offset 0 * 2 ^ 24 + mac.getD (offset + 1) 0 * 2 ^ 16 +
               mac.getD (offset + 2) 0 * 2 ^ 8 + mac.getD (offset + 3) 0
  padLeft digits (natToStr (value % 2 ^ 31 % 10 ^ digits))

end Totp

namespace Totp

/-! ## Theorems -/

/-- C7: equality of two `TOTP` entities holds iff their secret byte
sequences are equal; every other field is ignored by `totpEq`, which only
reads `secret`. -/
theorem claim_C7 (a b : TOTP) : totpEq a b = true ↔ a.secret = b.secret := by
  simp [totpEq]

/-- C9 counterexample: `new` accepts `step = 0`, so a constructed entity
can violate the claimed invariant `step > 0`. -/
theorem claim_C9_cex :
    TOTP.new .SHA1 6 1 0 (List.replicate 16 0) "" none =
      .ok ⟨.SHA1, 6, 1, 0, List.replicate 16 0, "", none⟩ ∧
    (⟨.SHA1, 6, 1, 0, List.replicate 16 0, "", none⟩ : TOTP).step = 0 := by
  exact ⟨by decide, rfl⟩

/-- C9 (amended): `new` does not validate `step`; it copies the given
`step` into the entity unchanged, so `step > 0` holds for the returned
entity exactly when the caller supplied `step > 0`. -/
theorem claim_C9 (algorithm : Algorithm) (digits skew step : Nat)
    (secret : List Nat) (account_name : String) (issuer : Option String)
    (t : TOTP)
    (h : TOTP.new algorithm digits skew step secret account_name issuer = .ok t) :
    t.step = step ∧ (0 < step → 0 < t.step) := by
  rcases issuer with _ | i
  · unfold TOTP.new at h
    split_ifs at h
    · rw [Except.ok.injEq] at h
      subst h
      exact ⟨rfl, fun hp => hp⟩
  · unfold TOTP.new at h
    rw [show (match some i with
        | some i => if i.data.contains ':' = true then Except.error (Error.Issuer i)
            else Except.ok (⟨algorithm, digits, skew, step, secret,
              account_name, some i⟩ : TOTP)
        | none => Except.ok ⟨algorithm, digits, skew, step, secret,
            account_name, some i⟩) =
        (if i.data.contains ':' = true then Except.error (Error.Issuer i)
          else Except.ok ⟨algorithm, digits, skew, step, secret,
            account_name, some i⟩) from rfl] at h
    split_ifs at h
    rw [Except.ok.injEq] at h
    subst h
    exact ⟨rfl, fun hp => hp⟩

/-- C9 witness. -/
theorem claim_C9_witness :
    (⟨.SHA1, 6, 1, 30, List.replicate 16 0, "", none⟩ : TOTP).step = 30 ∧
    (0 < 30 → 0 < (⟨.SHA1, 6, 1, 30, List.replicate 16 0, "", none⟩ : TOTP).step) :=
  claim_C9 .SHA1 6 1 30 (List.replicate 16 0) "" none
    ⟨.SHA1, 6, 1, 30, List.replicate 16 0, "", none⟩ (by decide)

/-- C5: on the input `"otpauth:totp"` — a well-formed URI whose scheme is
`otpauth` but which has no host component — `from_url` does not return any
value of the error taxonomy: it panics (`url.host().unwrap()` on `None`),
modelled by the result `none`. -/
theorem claim_C5 : TOTP.from_url "otpauth:totp" = none := by decide

/-- C6 counterexample: `"ME"` is valid unpadded base32 (it decodes to the
single byte 97), yet `from_secret_base32 "ME"` does not return an entity
with that secret: the decoded bytes are passed through the validating
constructor, which rejects them as too small. -/
theorem claim_C6_cex :
    b32decode "ME" = some [97] ∧
    TOTP.from_secret_base32 "ME" = .error (.SecretTooSmall 8) := by
  exact ⟨by decide, by decide⟩

/-- C6 (amended): `from_secret_base32 text` fails with `Secret text`
exactly when the base32 decoder rejects `text`; when decoding succeeds the
decoded bytes are passed to the validating constructor with defaults
SHA1/6/1/30/""/none, so a decoded secret shorter than 16 bytes yields
`SecretTooSmall` and otherwise the entity with those defaults is returned. -/
theorem claim_C6 (s : String) :
    (b32decode s = none → TOTP.from_secret_base32 s = .error (.Secret s)) ∧
    (∀ buf, b32decode s = some buf → buf.length < 16 →
      TOTP.from_secret_base32 s = .error (.SecretTooSmall (buf.length * 8))) ∧
    (∀ buf, b32decode s = some buf → 16 ≤ buf.length →
      TOTP.from_secret_base32 s = .ok ⟨.SHA1, 6, 1, 30, buf, "", none⟩) := by
  refine ⟨fun h => ?_, fun buf h hlt => ?_, fun buf h hle => ?_⟩ <;>
    simp only [TOTP.from_secret_base32, h] <;>
    simp [TOTP.new] <;> omega

/-- C6 witness. -/
theorem claim_C6_witness :
    TOTP.from_secret_base32 "ME" = .error (.SecretTooSmall ([97].length * 8)) :=
  (claim_C6 "ME").2.1 [97] (by decide) (by decide)

/-- C3: `new` succeeds iff `digits ∈ [6,8]`, the secret has at least 16
bytes, and neither the account name nor a present issuer contains `':'`;
the failures are reported in the order `InvalidDigits`, `SecretTooSmall`,
`AccountName`, `Issuer`; on success the entity holds exactly the given
field values. -/
theorem claim_C3 (algorithm : Algorithm) (digits skew step : Nat)
    (secret : List Nat) (account_name : String) (issuer : Option String) :
    ((∃ t, TOTP.new algorithm digits skew step secret account_name issuer = .ok t) ↔
      ((6 ≤ digits ∧ digits ≤ 8) ∧ 16 ≤ secret.length ∧
       account_name.data.contains ':' = false ∧
       (∀ i, issuer = some i → i.data.contains ':' = false))) ∧
    (¬ (6 ≤ digits ∧ digits ≤ 8) →
      TOTP.new algorithm digits skew step secret account_name issuer =
        .error (.InvalidDigits digits)) ∧
    ((6 ≤ digits ∧ digits ≤ 8) → secret.length < 16 →
      TOTP.new algorithm digits skew step secret account_name issuer =
        .error (.SecretTooSmall (secret.length * 8))) ∧
    ((6 ≤ digits ∧ digits ≤ 8) → 16 ≤ secret.length →
      account_name.data.contains ':' = true →
      TOTP.new algorithm digits skew step secret account_name issuer =
        .error (.AccountName account_name)) ∧
    (∀ i, issuer = some i → (6 ≤ digits ∧ digits ≤ 8) → 16 ≤ secret.length →
      account_name.data.contains ':' = false → i.data.contains ':' = true →
      TOTP.new algorithm digits skew step secret account_name issuer =
        .error (.Issuer i)) ∧
    ((6 ≤ digits ∧ digits ≤ 8) → 16 ≤ secret.length →
      account_name.data.contains ':' = false →
      (∀ i, issuer = some i → i.data.contains ':' = false) →
      TOTP.new algorithm digits skew step secret account_name issuer =
        .ok ⟨algorithm, digits, skew, step, secret, account_name, issuer⟩) := by
  rcases issuer with _ | i <;> simp only [TOTP.new] <;> split_ifs <;>
    simp_all

/-- C3 witness. -/
theorem claim_C3_witness :
    TOTP.new .SHA1 6 1 30 (List.replicate 16 0) "acc" none =
      .ok ⟨.SHA1, 6, 1, 30, List.replicate 16 0, "acc", none⟩ :=
  (claim_C3 .SHA1 6 1 30 (List.replicate 16 0) "acc" none).2.2.2.2.2
    (by decide) (by decide) (by decide) (by simp)

/-- C1 (amended to `skew ≤ 127`): for `skew ≤ 127` the token is accepted
iff it equals `generate` at one of the `2*skew + 1` candidate step
boundaries `((time/step - skew) + i) * step` (`i ≤ 2*skew`), all arithmetic
over the wrapping unsigned 64-bit time domain.  For `skew ≥ 128` the claim
fails: the loop bound `skew * 2 + 1` is computed in 8-bit arithmetic and
wraps, see the counterexample. -/
theorem claim_C1 (t : TOTP) (token : String) (time : Nat)
    (hskew : t.skew ≤ 127) (htime : time < M64) :
    t.check token time = true ↔
      ∃ i, i ≤ 2 * t.skew ∧
        token = t.generate
          ((wsub64 (time / t.step) t.skew + i) % M64 * t.step % M64) := by
  have hb : (t.skew * 2 % 256 + 1) % 256 = 2 * t.skew + 1 := by omega
  simp only [TOTP.check, hb, List.any_eq_true, List.mem_range, beq_iff_eq]
  constructor
  · rintro ⟨i, hi, he⟩
    exact ⟨i, by omega, he.symm⟩
  · rintro ⟨i, hi, he⟩
    exact ⟨i, by omega, he.symm⟩

/-- C1 witness for the amended theorem. -/
theorem claim_C1_witness :
    TOTP.check ⟨.SHA1, 6, 1, 1, testSecret, "", none⟩ "659761" 1000 = true ↔
      ∃ i, i ≤ 2 * 1 ∧
        "659761" = TOTP.generate ⟨.SHA1, 6, 1, 1, testSecret, "", none⟩
          ((wsub64 (1000 / 1) 1 + i) % M64 * 1 % M64) :=
  claim_C1 ⟨.SHA1, 6, 1, 1, testSecret, "", none⟩ "659761" 1000
    (by decide) (by decide)

set_option maxRecDepth 1000000 in
set_option maxHeartbeats 2000000 in
/-- C1 counterexample: with `skew = 128` the candidate `i = 1` lies in the
claimed window (`1 ≤ 2*skew`) and the token below is `generate` at that
candidate, yet `check` rejects it — the `u8` expression `skew * 2 + 1`
wraps to 1, so only the candidate `i = 0` is tried. -/
theorem claim_C1_cex :
    (1 : Nat) ≤ 2 * 128 ∧
    TOTP.check ⟨.SHA1, 6, 128, 1, testSecret, "", none⟩
      (TOTP.generate ⟨.SHA1, 6, 128, 1, testSecret, "", none⟩
        ((wsub64 (0 / 1) 128 + 1) % M64 * 1 % M64)) 0 = false :=
  ⟨by decide, by decide⟩

/-- Every byte produced by `beBytes` is below 256. -/
theorem beBytes_lt {k n b : Nat} (hb : b ∈ beBytes k n) : b < 256 := by
  induction k generalizing n with
  | zero => simp [beBytes] at hb
  | succ k ih =>
    simp only [beBytes, List.mem_cons] at hb
    rcases hb with h | h
    · omega
    · exact ih h

/-- `beBytes k n` has length `k`. -/
theorem beBytes_length (k n : Nat) : (beBytes k n).length = k := by
  induction k generalizing n with
  | zero => rfl
  | succ k ih => simp [beBytes, ih]

/-- The SHA-1 digest has 20 bytes. -/
theorem sha1_length (m : List Nat) : (sha1 m).length = 20 := by
  simp [sha1, beBytes_length]

/-- The SHA-256 digest has 32 bytes. -/
theorem sha256_length (m : List Nat) : (sha256 m).length = 32 := by
  simp [sha256, beBytes_length]

/-- The SHA-512 digest has 64 bytes. -/
theorem sha512_length (m : List Nat) : (sha512 m).length = 64 := by
  simp [sha512, beBytes_length]

/-- The MAC computed by `TOTP.sign` has at least 20 bytes. -/
theorem sign_length (t : TOTP) (time : Nat) : 20 ≤ (t.sign time).length := by
  cases halg : t.algorithm <;>
    simp [TOTP.sign, Algorithm.sign, halg, hmac, sha1_length, sha256_length,
      sha512_length]

/-- Four consecutive elements of a list via `drop`/`take` are the four
`getD` lookups. -/
theorem take4_drop (l : List Nat) (i : Nat) (h : i + 4 ≤ l.length) :
    (l.drop i).take 4 =
      [l.getD i 0, l.getD (i + 1) 0, l.getD (i + 2) 0, l.getD (i + 3) 0] := by
  have h0 : i < l.length := by omega
  have h1 : i + 1 < l.length := by omega
  have h2 : i + 2 < l.length := by omega
  have h3 : i + 3 < l.length := by omega
  have e0 : l.getD i 0 = l[i] := by
    simp [List.getD_eq_getElem?_getD, List.getElem?_eq_getElem, h0]
  have e1 : l.getD (i + 1) 0 = l[i + 1] := by
    simp [List.getD_eq_getElem?_getD, List.getElem?_eq_getElem, h1]
  have e2 : l.getD (i + 2) 0 = l[i + 2] := by
    simp [List.getD_eq_getElem?_getD, List.getElem?_eq_getElem, h2]
  have e3 : l.getD (i + 3) 0 = l[i + 3] := by
    simp [List.getD_eq_getElem?_getD, List.getElem?_eq_getElem, h3]
  rw [e0, e1, e2, e3, List.drop_eq_getElem_cons h0, List.drop_eq_getElem_cons h1,
    List.drop_eq_getElem_cons h2, List.drop_eq_getElem_cons h3]
  rfl

/-- Digit-count bound for the fuel-based decimal rendering. -/
theorem natDigitsAux_length_le :
    ∀ fuel n d : Nat, n < fuel → n < 10 ^ d → 1 ≤ d →
      (natDigitsAux fuel n).length ≤ d := by
  intro fuel
  induction fuel with
  | zero => intro n d h; omega
  | succ fuel ih =>
    intro n d hf hd h1
    by_cases h10 : n < 10
    · simp only [natDigitsAux, if_pos h10, List.length_cons, List.length_nil]
      omega
    · have hdiv : n / 10 < n := Nat.div_lt_self (by omega) (by omega)
      have hd2 : 2 ≤ d := by
        by_contra hc
        have : d = 1 := by omega
        subst this
        simp at hd
        omega
      have hpow : (10 : Nat) ^ (d - 1) * 10 = 10 ^ d := by
        rw [← pow_succ]
        congr 1
        omega
      have hrec : (natDigitsAux fuel (n / 10)).length ≤ d - 1 := by
        apply ih
        · omega
        · rw [Nat.div_lt_iff_lt_mul (by omega : 0 < 10), hpow]
          exact hd
        · omega
      simp only [natDigitsAux, if_neg h10, List.length_append,
        List.length_cons, List.length_nil]
      omega

/-- `padLeft` produces exactly `w` characters when the input is no longer
than `w`. -/
theorem padLeft_length (w : Nat) (s : String) (h : s.length ≤ w) :
    (padLeft w s).length = w := by
  have hs : s.data.length = s.length := rfl
  simp only [padLeft, String.length_mk, List.length_append,
    List.length_replicate, hs]
  omega

set_option maxRecDepth 4000 in
/-- `generate` returns a string of exactly `digits` characters when
`1 ≤ digits ≤ 8`. -/
theorem generate_length (t : TOTP) (time : Nat) (h1 : 1 ≤ t.digits)
    (h8 : t.digits ≤ 8) : (t.generate time).length = t.digits := by
  have hpowlt : (10 : Nat) ^ t.digits < M32 := by
    calc (10 : Nat) ^ t.digits ≤ 10 ^ 8 := Nat.pow_le_pow_right (by omega) h8
    _ < M32 := by norm_num [M32]
  have hpow : (10 : Nat) ^ t.digits % M32 = 10 ^ t.digits :=
    Nat.mod_eq_of_lt hpowlt
  simp only [TOTP.generate, hpow]
  apply padLeft_length
  have hcode : (beWord ((t.sign time).drop ((t.sign time).getLastD 0 &&& 15)
        |>.take 4) &&& 0x7fffffff) % 10 ^ t.digits < 10 ^ t.digits :=
    Nat.mod_lt _ (by positivity)
  simp only [natToStr, String.length_mk]
  exact natDigitsAux_length_le _ _ _ (by omega) hcode h1

set_option maxRecDepth 4000 in
/-- `generate` coincides with the specification's dynamic truncation of the
MAC produced by `sign` (for `digits ≤ 8`, where the `u32` power
`10_u32.pow(digits)` does not wrap). -/
theorem generate_eq_spec (t : TOTP) (time : Nat) (h8 : t.digits ≤ 8) :
    t.generate time = dynamicTruncationSpec t.digits (t.sign time) := by
  have hlen : 20 ≤ (t.sign time).length := sign_length t time
  have h15 : ∀ x : Nat, x &&& 15 = x % 16 := fun x => by
    have h := Nat.and_pow_two_sub_one_eq_mod x 4
    norm_num at h
    exact h
  have h31 : ∀ x : Nat, x &&& 2147483647 = x % 2147483648 := fun x => by
    have h := Nat.and_pow_two_sub_one_eq_mod x 31
    norm_num at h
    exact h
  have hpow : (10 : Nat) ^ t.digits % M32 = 10 ^ t.digits := by
    apply Nat.mod_eq_of_lt
    calc (10 : Nat) ^ t.digits ≤ 10 ^ 8 := Nat.pow_le_pow_right (by omega) h8
    _ < M32 := by norm_num [M32]
  simp only [TOTP.generate, dynamicTruncationSpec, hpow, h15, h31]
  have hoff : (t.sign time).getLastD 0 % 16 + 4 ≤ (t.sign time).length := by
    have : (t.sign time).getLastD 0 % 16 < 16 := Nat.mod_lt _ (by omega)
    omega
  rw [take4_drop _ _ hoff]
  congr 2
  simp only [beWord, List.foldl_cons, List.foldl_nil]
  norm_num
  ring

/-- C2: for `6 ≤ digits ≤ 8` and `step > 0`, `generate(time)` is exactly
the RFC 4226 dynamic truncation of the MAC `sign(time)` — low nibble of the
last byte as offset, four bytes from there read big-endian with the sign
bit cleared, reduced mod `10^digits` — rendered as a zero-padded decimal
string of exactly `digits` characters. -/
theorem claim_C2 (t : TOTP) (time : Nat) (h6 : 6 ≤ t.digits)
    (h8 : t.digits ≤ 8) (hs : 0 < t.step) :
    t.generate time = dynamicTruncationSpec t.digits (t.sign time) ∧
    (t.generate time).length = t.digits :=
  ⟨generate_eq_spec t time h8, generate_length t time (by omega) h8⟩

/-- C2 witness. -/
theorem claim_C2_witness :
    TOTP.generate ⟨.SHA1, 6, 1, 1, testSecret, "", none⟩ 1000 =
      dynamicTruncationSpec 6
        (TOTP.sign ⟨.SHA1, 6, 1, 1, testSecret, "", none⟩ 1000) ∧
    (TOTP.generate ⟨.SHA1, 6, 1, 1, testSecret, "", none⟩ 1000).length = 6 :=
  claim_C2 ⟨.SHA1, 6, 1, 1, testSecret, "", none⟩ 1000 (by decide) (by decide)
    (by decide)

/-- Every character of the decimal rendering is a digit. -/
theorem natDigitsAux_digits :
    ∀ fuel n : Nat, n < fuel → ∀ c ∈ natDigitsAux fuel n, c.isDigit = true := by
  have hd : ∀ m : Nat, m < 10 → (digitChr m).isDigit = true := by decide
  intro fuel
  induction fuel with
  | zero => intro n h; omega
  | succ fuel ih =>
    intro n hf c hc
    by_cases h10 : n < 10
    · simp only [natDigitsAux, if_pos h10, List.mem_singleton] at hc
      subst hc
      exact hd n h10
    · simp only [natDigitsAux, if_neg h10, List.mem_append,
        List.mem_singleton] at hc
      rcases hc with hc | hc
      · have hdiv : n / 10 < n := Nat.div_lt_self (by omega) (by omega)
        exact ih (n / 10) (by omega) c hc
      · subst hc
        exact hd _ (Nat.mod_lt _ (by omega))

/-- The decimal rendering is never empty. -/
theorem natDigitsAux_ne_nil (fuel n : Nat) (h : n < fuel) :
    natDigitsAux fuel n ≠ [] := by
  cases fuel with
  | zero => omega
  | succ fuel =>
    by_cases h10 : n < 10
    · simp [natDigitsAux, h10]
    · simp [natDigitsAux, h10]

/-- Folding the digit characters back with base-10 accumulation recovers
the number. -/
theorem natDigitsAux_foldl :
    ∀ fuel n acc : Nat, n < fuel →
      (natDigitsAux fuel n).foldl (fun a c => a * 10 + (c.toNat - 48)) acc =
        acc * 10 ^ (natDigitsAux fuel n).length + n := by
  have hd : ∀ m : Nat, m < 10 → (digitChr m).toNat - 48 = m := by decide
  intro fuel
  induction fuel with
  | zero => intro n acc h; omega
  | succ fuel ih =>
    intro n acc hf
    by_cases h10 : n < 10
    · simp only [natDigitsAux, if_pos h10, List.foldl_cons, List.foldl_nil,
        List.length_singleton, pow_one, hd n h10]
    · have hdiv : n / 10 < n := Nat.div_lt_self (by omega) (by omega)
      simp only [natDigitsAux, if_neg h10, List.foldl_append, List.foldl_cons,
        List.foldl_nil, List.length_append, List.length_singleton]
      rw [ih (n / 10) acc (by omega), hd _ (Nat.mod_lt _ (by omega)), pow_succ]
      have := Nat.div_add_mod n 10
      ring_nf
      omega

/-- Rust `parse::<usize>` inverts the decimal rendering for any value that
fits in 64 bits. -/
theorem parseNat64_natToStr (n : Nat) (h : n < M64) :
    parseNat64 (natToStr n) = some n := by
  have hne := natDigitsAux_ne_nil (n + 1) n (by omega)
  have hdig := natDigitsAux_digits (n + 1) n (by omega)
  have hfold := natDigitsAux_foldl (n + 1) n 0 (by omega)
  unfold parseNat64 natToStr
  have hdata : (String.mk (natDigitsAux (n + 1) n)).data =
      natDigitsAux (n + 1) n := rfl
  rw [hdata]
  split
  · rename_i rest heq
    exfalso
    have hmem : '+' ∈ natDigitsAux (n + 1) n := by
      rw [heq]
      exact List.mem_cons_self _ _
    have := hdig _ hmem
    exact absurd this (by decide)
  · rename_i cs hnp
    rw [if_neg hne, if_pos (by rw [List.all_eq_true]; exact hdig)]
    rw [hfold]
    simp only [zero_mul, zero_add]
    rw [if_pos h]

/-- `a ||| b = a + b` when `a` is a multiple of `2^k` and `b < 2^k`. -/
theorem lor_eq_add (k a b : Nat) (ha : a % 2 ^ k = 0) (hb : b < 2 ^ k) :
    a ||| b = a + b := by
  have hd : 2 ^ k * (a / 2 ^ k) = a := Nat.mul_div_cancel' (Nat.dvd_of_mod_eq_zero ha)
  calc a ||| b = 2 ^ k * (a / 2 ^ k) ||| b := by rw [hd]
  _ = 2 ^ k * (a / 2 ^ k) + b := (Nat.mul_add_lt_is_or hb _).symm
  _ = a + b := by rw [hd]

/-- Shifting a masked value right distributes when the mask is a multiple
of the shift. -/
theorem and_mul_pow_shiftRight (x m k : Nat) :
    (x &&& m * 2 ^ k) >>> k = (x >>> k) &&& m := by
  apply Nat.eq_of_testBit_eq
  intro i
  simp only [Nat.testBit_shiftRight, Nat.testBit_and,
    Nat.mul_comm m (2 ^ k), Nat.testBit_mul_pow_two]
  have e2 : k + i - k = i := by omega
  simp [e2]

theorem m248 (x : Nat) : (x &&& 248) >>> 3 = x / 8 % 32 := by
  have h := and_mul_pow_shiftRight x 31 3
  norm_num at h
  rw [h, Nat.shiftRight_eq_div_pow]
  have h2 := Nat.and_pow_two_sub_one_eq_mod (x / 2 ^ 3) 5
  norm_num at h2 ⊢
  exact h2

theorem m192 (x : Nat) : (x &&& 192) >>> 6 = x / 64 % 4 := by
  have h := and_mul_pow_shiftRight x 3 6
  norm_num at h
  rw [h, Nat.shiftRight_eq_div_pow]
  have h2 := Nat.and_pow_two_sub_one_eq_mod (x / 2 ^ 6) 2
  norm_num at h2 ⊢
  exact h2

theorem m62 (x : Nat) : (x &&& 62) >>> 1 = x / 2 % 32 := by
  have h := and_mul_pow_shiftRight x 31 1
  norm_num at h
  rw [h, Nat.shiftRight_eq_div_pow]
  have h2 := Nat.and_pow_two_sub_one_eq_mod (x / 2 ^ 1) 5
  norm_num at h2 ⊢
  exact h2

theorem m240 (x : Nat) : (x &&& 240) >>> 4 = x / 16 % 16 := by
  have h := and_mul_pow_shiftRight x 15 4
  norm_num at h
  rw [h, Nat.shiftRight_eq_div_pow]
  have h2 := Nat.and_pow_two_sub_one_eq_mod (x / 2 ^ 4) 4
  norm_num at h2 ⊢
  exact h2

theorem m124 (x : Nat) : (x &&& 124) >>> 2 = x / 4 % 32 := by
  have h := and_mul_pow_shiftRight x 31 2
  norm_num at h
  rw [h, Nat.shiftRight_eq_div_pow]
  have h2 := Nat.and_pow_two_sub_one_eq_mod (x / 2 ^ 2) 5
  norm_num at h2 ⊢
  exact h2

theorem m224 (x : Nat) : (x &&& 224) >>> 5 = x / 32 % 8 := by
  have h := and_mul_pow_shiftRight x 7 5
  norm_num at h
  rw [h, Nat.shiftRight_eq_div_pow]
  have h2 := Nat.and_pow_two_sub_one_eq_mod (x / 2 ^ 5) 3
  norm_num at h2 ⊢
  exact h2

theorem m7 (x : Nat) : x &&& 7 = x % 8 := by
  have h2 := Nat.and_pow_two_sub_one_eq_mod x 3
  norm_num at h2
  exact h2

theorem m1 (x : Nat) : x &&& 1 = x % 2 := Nat.and_one_is_mod x

theorem m3 (x : Nat) : x &&& 3 = x % 4 := by
  have h2 := Nat.and_pow_two_sub_one_eq_mod x 2
  norm_num at h2
  exact h2

theorem m15 (x : Nat) : x &&& 15 = x % 16 := by
  have h2 := Nat.and_pow_two_sub_one_eq_mod x 4
  norm_num at h2
  exact h2

theorem m31 (x : Nat) : x &&& 31 = x % 32 := by
  have h2 := Nat.and_pow_two_sub_one_eq_mod x 5
  norm_num at h2
  exact h2

-- trial: first byte of the full chunk
example (b0 b1 : Nat) (h0 : b0 < 256) (h1 : b1 < 256) :
    (((((b0 &&& 248) >>> 3) <<< 3) % 256) |||
      ((((b0 &&& 7) <<< 2) ||| ((b1 &&& 192) >>> 6)) >>> 2)) = b0 := by
  simp only [m248, m192, m62, m240, m124, m224]
  simp only [m7, m1, m3, m15, m31]
  simp only [Nat.shiftLeft_eq, Nat.shiftRight_eq_div_pow]
  norm_num
  rw [lor_eq_add 2 (b0 % 8 * 4) (b1 / 64 % 4) (by omega) (by omega)]
  rw [lor_eq_add 3 (b0 / 8 % 32 * 8 % 256) ((b0 % 8 * 4 + b1 / 64 % 4) / 4)
    (by omega) (by omega)]
  omega

theorem decVals_encVals_cons (b0 b1 b2 b3 b4 : Nat) (rest : List Nat)
    (h0 : b0 < 256) (h1 : b1 < 256) (h2 : b2 < 256) (h3 : b3 < 256)
    (h4 : b4 < 256) :
    b32decVals (encVals (b0 :: b1 :: b2 :: b3 :: b4 :: rest)) =
      b0 :: b1 :: b2 :: b3 :: b4 :: b32decVals (encVals rest) := by
  simp only [encVals, b32decVals, List.cons.injEq]
  refine ⟨?_, ?_, ?_, ?_, ?_, trivial⟩
  · simp only [m248, m192, m62, m240, m124, m224]
    simp only [m7, m1, m3, m15, m31]
    simp only [Nat.shiftLeft_eq, Nat.shiftRight_eq_div_pow]
    norm_num
    rw [lor_eq_add 2 (b0 % 8 * 4) (b1 / 64 % 4) (by omega) (by omega)]
    rw [lor_eq_add 3 (b0 / 8 % 32 * 8 % 256) ((b0 % 8 * 4 + b1 / 64 % 4) / 4)
      (by omega) (by omega)]
    omega
  · simp only [m248, m192, m62, m240, m124, m224]
    simp only [m7, m1, m3, m15, m31]
    simp only [Nat.shiftLeft_eq, Nat.shiftRight_eq_div_pow]
    norm_num
    rw [lor_eq_add 2 (b0 % 8 * 4) (b1 / 64 % 4) (by omega) (by omega)]
    rw [lor_eq_add 4 (b1 % 2 * 16) (b2 / 16 % 16) (by omega) (by omega)]
    rw [lor_eq_add 6 ((b0 % 8 * 4 + b1 / 64 % 4) * 64 % 256)
      (b1 / 2 % 32 * 2 % 256) (by omega) (by omega)]
    rw [lor_eq_add 1
      ((b0 % 8 * 4 + b1 / 64 % 4) * 64 % 256 + b1 / 2 % 32 * 2 % 256)
      ((b1 % 2 * 16 + b2 / 16 % 16) / 16) (by omega) (by omega)]
    omega
  · simp only [m248, m192, m62, m240, m124, m224]
    simp only [m7, m1, m3, m15, m31]
    simp only [Nat.shiftLeft_eq, Nat.shiftRight_eq_div_pow]
    norm_num
    rw [lor_eq_add 4 (b1 % 2 * 16) (b2 / 16 % 16) (by omega) (by omega)]
    rw [lor_eq_add 1 (b2 % 16 * 2) (b3 / 128) (by omega) (by omega)]
    rw [lor_eq_add 4 ((b1 % 2 * 16 + b2 / 16 % 16) * 16 % 256)
      ((b2 % 16 * 2 + b3 / 128) / 2) (by omega) (by omega)]
    omega
  · simp only [m248, m192, m62, m240, m124, m224]
    simp only [m7, m1, m3, m15, m31]
    simp only [Nat.shiftLeft_eq, Nat.shiftRight_eq_div_pow]
    norm_num
    rw [lor_eq_add 1 (b2 % 16 * 2) (b3 / 128) (by omega) (by omega)]
    rw [lor_eq_add 3 (b3 % 4 * 8) (b4 / 32 % 8) (by omega) (by omega)]
    rw [lor_eq_add 7 ((b2 % 16 * 2 + b3 / 128) * 128 % 256)
      (b3 / 4 % 32 * 4 % 256) (by omega) (by omega)]
    rw [lor_eq_add 2
      ((b2 % 16 * 2 + b3 / 128) * 128 % 256 + b3 / 4 % 32 * 4 % 256)
      ((b3 % 4 * 8 + b4 / 32 % 8) / 8) (by omega) (by omega)]
    omega
  · simp only [m248, m192, m62, m240, m124, m224]
    simp only [m7, m1, m3, m15, m31]
    simp only [Nat.shiftLeft_eq, Nat.shiftRight_eq_div_pow]
    norm_num
    rw [lor_eq_add 3 (b3 % 4 * 8) (b4 / 32 % 8) (by omega) (by omega)]
    rw [lor_eq_add 5 ((b3 % 4 * 8 + b4 / 32 % 8) * 32 % 256) (b4 % 32)
      (by omega) (by omega)]
    omega

theorem b32decVals_two (v0 v1 : Nat) :
    b32decVals [v0, v1] =
      [((v0 <<< 3) % 256) ||| (v1 >>> 2),
       (((v1 <<< 6) % 256) ||| ((0 <<< 1) % 256)) ||| (0 >>> 4),
       ((0 <<< 4) % 256) ||| (0 >>> 1),
       (((0 <<< 7) % 256) ||| ((0 <<< 2) % 256)) ||| (0 >>> 3),
       ((0 <<< 5) % 256) ||| 0] := rfl

theorem b32decVals_four (v0 v1 v2 v3 : Nat) :
    b32decVals [v0, v1, v2, v3] =
      [((v0 <<< 3) % 256) ||| (v1 >>> 2),
       (((v1 <<< 6) % 256) ||| ((v2 <<< 1) % 256)) ||| (v3 >>> 4),
       ((v3 <<< 4) % 256) ||| (0 >>> 1),
       (((0 <<< 7) % 256) ||| ((0 <<< 2) % 256)) ||| (0 >>> 3),
       ((0 <<< 5) % 256) ||| 0] := rfl

theorem b32decVals_five (v0 v1 v2 v3 v4 : Nat) :
    b32decVals [v0, v1, v2, v3, v4] =
      [((v0 <<< 3) % 256) ||| (v1 >>> 2),
       (((v1 <<< 6) % 256) ||| ((v2 <<< 1) % 256)) ||| (v3 >>> 4),
       ((v3 <<< 4) % 256) ||| (v4 >>> 1),
       (((v4 <<< 7) % 256) ||| ((0 <<< 2) % 256)) ||| (0 >>> 3),
       ((0 <<< 5) % 256) ||| 0] := rfl

theorem b32decVals_seven (v0 v1 v2 v3 v4 v5 v6 : Nat) :
    b32decVals [v0, v1, v2, v3, v4, v5, v6] =
      [((v0 <<< 3) % 256) ||| (v1 >>> 2),
       (((v1 <<< 6) % 256) ||| ((v2 <<< 1) % 256)) ||| (v3 >>> 4),
       ((v3 <<< 4) % 256) ||| (v4 >>> 1),
       (((v4 <<< 7) % 256) ||| ((v5 <<< 2) % 256)) ||| (v6 >>> 3),
       ((v6 <<< 5) % 256) ||| 0] := rfl

theorem take_one_five (x0 x1 x2 x3 x4 : α) :
    List.take 1 [x0, x1, x2, x3, x4] = [x0] := rfl

theorem take_two_five (x0 x1 x2 x3 x4 : α) :
    List.take 2 [x0, x1, x2, x3, x4] = [x0, x1] := rfl

theorem take_three_five (x0 x1 x2 x3 x4 : α) :
    List.take 3 [x0, x1, x2, x3, x4] = [x0, x1, x2] := rfl

theorem take_four_five (x0 x1 x2 x3 x4 : α) :
    List.take 4 [x0, x1, x2, x3, x4] = [x0, x1, x2, x3] := rfl

theorem take_add_five (L : Nat) (x0 x1 x2 x3 x4 : α) (rest : List α) :
    List.take (L + 5) (x0 :: x1 :: x2 :: x3 :: x4 :: rest) =
      x0 :: x1 :: x2 :: x3 :: x4 :: List.take L rest := by
  rw [show L + 5 = (L + 4) + 1 from rfl, List.take_succ_cons,
    show L + 4 = (L + 3) + 1 from rfl, List.take_succ_cons,
    show L + 3 = (L + 2) + 1 from rfl, List.take_succ_cons,
    show L + 2 = (L + 1) + 1 from rfl, List.take_succ_cons,
    List.take_succ_cons]

theorem decVals_encVals_take :
    ∀ n bs, List.length bs ≤ n → (∀ b ∈ bs, b < 256) →
      (b32decVals (encVals bs)).take bs.length = bs := by
  intro n
  induction n with
  | zero =>
    intro bs hlen hb
    have : bs = [] := List.length_eq_zero.mp (by omega)
    subst this
    rfl
  | succ n ih =>
    intro bs hlen hb
    rcases bs with _ | ⟨b0, _ | ⟨b1, _ | ⟨b2, _ | ⟨b3, _ | ⟨b4, rest⟩⟩⟩⟩⟩
    · rfl
    · have h0 : b0 < 256 := hb b0 (by simp)
      rw [show encVals [b0] = [(b0 &&& 248) >>> 3, (b0 &&& 7) <<< 2] from rfl,
        b32decVals_two, show List.length [b0] = 1 from rfl, take_one_five]
      simp only [List.cons.injEq, and_true]
      simp only [m248, m192, m62, m240, m124, m224]
      simp only [m7, m1, m3, m15, m31]
      simp only [Nat.shiftLeft_eq, Nat.shiftRight_eq_div_pow]
      norm_num
      rw [lor_eq_add 3 (b0 / 8 % 32 * 8 % 256) (b0 % 8) (by omega)
        (by omega)]
      omega
    · have h0 : b0 < 256 := hb b0 (by simp)
      have h1 : b1 < 256 := hb b1 (by simp)
      rw [show encVals [b0, b1] =
          [(b0 &&& 248) >>> 3, ((b0 &&& 7) <<< 2) ||| ((b1 &&& 192) >>> 6),
           (b1 &&& 62) >>> 1, (b1 &&& 1) <<< 4] from rfl,
        b32decVals_four, show List.length [b0, b1] = 2 from rfl, take_two_five]
      simp only [List.cons.injEq, and_true]
      refine ⟨?_, ?_⟩
      · simp only [m248, m192, m62, m240, m124, m224]
        simp only [m7, m1, m3, m15, m31]
        simp only [Nat.shiftLeft_eq, Nat.shiftRight_eq_div_pow]
        norm_num
        rw [lor_eq_add 2 (b0 % 8 * 4) (b1 / 64 % 4) (by omega) (by omega)]
        rw [lor_eq_add 3 (b0 / 8 % 32 * 8 % 256) ((b0 % 8 * 4 + b1 / 64 % 4) / 4)
          (by omega) (by omega)]
        omega
      · simp only [m248, m192, m62, m240, m124, m224]
        simp only [m7, m1, m3, m15, m31]
        simp only [Nat.shiftLeft_eq, Nat.shiftRight_eq_div_pow]
        norm_num
        rw [lor_eq_add 2 (b0 % 8 * 4) (b1 / 64 % 4) (by omega) (by omega)]
        rw [lor_eq_add 6 ((b0 % 8 * 4 + b1 / 64 % 4) * 64 % 256)
          (b1 / 2 % 32 * 2 % 256) (by omega) (by omega)]
        rw [lor_eq_add 1
          ((b0 % 8 * 4 + b1 / 64 % 4) * 64 % 256 + b1 / 2 % 32 * 2 % 256)
          (b1 % 2) (by omega) (by omega)]
        omega
    · have h0 : b0 < 256 := hb b0 (by simp)
      have h1 : b1 < 256 := hb b1 (by simp)
      have h2 : b2 < 256 := hb b2 (by simp)
      rw [show encVals [b0, b1, b2] =
          [(b0 &&& 248) >>> 3, ((b0 &&& 7) <<< 2) ||| ((b1 &&& 192) >>> 6),
           (b1 &&& 62) >>> 1, ((b1 &&& 1) <<< 4) ||| ((b2 &&& 240) >>> 4),
           (b2 &&& 15) <<< 1] from rfl,
        b32decVals_five, show List.length [b0, b1, b2] = 3 from rfl,
        take_three_five]
      simp only [List.cons.injEq, and_true]
      refine ⟨?_, ?_, ?_⟩
      · simp only [m248, m192, m62, m240, m124, m224]
        simp only [m7, m1, m3, m15, m31]
        simp only [Nat.shiftLeft_eq, Nat.shiftRight_eq_div_pow]
        norm_num
        rw [lor_eq_add 2 (b0 % 8 * 4) (b1 / 64 % 4) (by omega) (by omega)]
        rw [lor_eq_add 3 (b0 / 8 % 32 * 8 % 256) ((b0 % 8 * 4 + b1 / 64 % 4) / 4)
          (by omega) (by omega)]
        omega
      · simp only [m248, m192, m62, m240, m124, m224]
        simp only [m7, m1, m3, m15, m31]
        simp only [Nat.shiftLeft_eq, Nat.shiftRight_eq_div_pow]
        norm_num
        rw [lor_eq_add 2 (b0 % 8 * 4) (b1 / 64 % 4) (by omega) (by omega)]
        rw [lor_eq_add 4 (b1 % 2 * 16) (b2 / 16 % 16) (by omega) (by omega)]
        rw [lor_eq_add 6 ((b0 % 8 * 4 + b1 / 64 % 4) * 64 % 256)
          (b1 / 2 % 32 * 2 % 256) (by omega) (by omega)]
        rw [lor_eq_add 1
          ((b0 % 8 * 4 + b1 / 64 % 4) * 64 % 256 + b1 / 2 % 32 * 2 % 256)
          ((b1 % 2 * 16 + b2 / 16 % 16) / 16) (by omega) (by omega)]
        omega
      · simp only [m248, m192, m62, m240, m124, m224]
        simp only [m7, m1, m3, m15, m31]
        simp only [Nat.shiftLeft_eq, Nat.shiftRight_eq_div_pow]
        norm_num
        rw [lor_eq_add 4 (b1 % 2 * 16) (b2 / 16 % 16) (by omega) (by omega)]
        rw [lor_eq_add 4 ((b1 % 2 * 16 + b2 / 16 % 16) * 16 % 256)
          (b2 % 16) (by omega) (by omega)]
        omega
    · have h0 : b0 < 256 := hb b0 (by simp)
      have h1 : b1 < 256 := hb b1 (by simp)
      have h2 : b2 < 256 := hb b2 (by simp)
      have h3 : b3 < 256 := hb b3 (by simp)
      rw [show encVals [b0, b1, b2, b3] =
          [(b0 &&& 248) >>> 3, ((b0 &&& 7) <<< 2) ||| ((b1 &&& 192) >>> 6),
           (b1 &&& 62) >>> 1, ((b1 &&& 1) <<< 4) ||| ((b2 &&& 240) >>> 4),
           ((b2 &&& 15) <<< 1) ||| (b3 >>> 7), (b3 &&& 124) >>> 2,
           (b3 &&& 3) <<< 3] from rfl,
        b32decVals_seven, show List.length [b0, b1, b2, b3] = 4 from rfl,
        take_four_five]
      simp only [List.cons.injEq, and_true]
      refine ⟨?_, ?_, ?_, ?_⟩
      · simp only [m248, m192, m62, m240, m124, m224]
        simp only [m7, m1, m3, m15, m31]
        simp only [Nat.shiftLeft_eq, Nat.shiftRight_eq_div_pow]
        norm_num
        rw [lor_eq_add 2 (b0 % 8 * 4) (b1 / 64 % 4) (by omega) (by omega)]
        rw [lor_eq_add 3 (b0 / 8 % 32 * 8 % 256) ((b0 % 8 * 4 + b1 / 64 % 4) / 4)
          (by omega) (by omega)]
        omega
      · simp only [m248, m192, m62, m240, m124, m224]
        simp only [m7, m1, m3, m15, m31]
        simp only [Nat.shiftLeft_eq, Nat.shiftRight_eq_div_pow]
        norm_num
        rw [lor_eq_add 2 (b0 % 8 * 4) (b1 / 64 % 4) (by omega) (by omega)]
        rw [lor_eq_add 4 (b1 % 2 * 16) (b2 / 16 % 16) (by omega) (by omega)]
        rw [lor_eq_add 6 ((b0 % 8 * 4 + b1 / 64 % 4) * 64 % 256)
          (b1 / 2 % 32 * 2 % 256) (by omega) (by omega)]
        rw [lor_eq_add 1
          ((b0 % 8 * 4 + b1 / 64 % 4) * 64 % 256 + b1 / 2 % 32 * 2 % 256)
          ((b1 % 2 * 16 + b2 / 16 % 16) / 16) (by omega) (by omega)]
        omega
      · simp only [m248, m192, m62, m240, m124, m224]
        simp only [m7, m1, m3, m15, m31]
        simp only [Nat.shiftLeft_eq, Nat.shiftRight_eq_div_pow]
        norm_num
        rw [lor_eq_add 4 (b1 % 2 * 16) (b2 / 16 % 16) (by omega) (by omega)]
        rw [lor_eq_add 1 (b2 % 16 * 2) (b3 / 128) (by omega) (by omega)]
        rw [lor_eq_add 4 ((b1 % 2 * 16 + b2 / 16 % 16) * 16 % 256)
          ((b2 % 16 * 2 + b3 / 128) / 2) (by omega) (by omega)]
        omega
      · simp only [m248, m192, m62, m240, m124, m224]
        simp only [m7, m1, m3, m15, m31]
        simp only [Nat.shiftLeft_eq, Nat.shiftRight_eq_div_pow]
        norm_num
        rw [lor_eq_add 1 (b2 % 16 * 2) (b3 / 128) (by omega) (by omega)]
        rw [lor_eq_add 7 ((b2 % 16 * 2 + b3 / 128) * 128 % 256)
          (b3 / 4 % 32 * 4 % 256) (by omega) (by omega)]
        rw [lor_eq_add 2
          ((b2 % 16 * 2 + b3 / 128) * 128 % 256 + b3 / 4 % 32 * 4 % 256)
          (b3 % 4) (by omega) (by omega)]
        omega
    · have h0 : b0 < 256 := hb b0 (by simp)
      have h1 : b1 < 256 := hb b1 (by simp)
      have h2 : b2 < 256 := hb b2 (by simp)
      have h3 : b3 < 256 := hb b3 (by simp)
      have h4 : b4 < 256 := hb b4 (by simp)
      rw [decVals_encVals_cons b0 b1 b2 b3 b4 rest h0 h1 h2 h3 h4]
      rw [show List.length (b0 :: b1 :: b2 :: b3 :: b4 :: rest) =
        rest.length + 5 by simp]
      rw [take_add_five]
      have hrec := ih rest (by simp at hlen; omega)
        (fun b hbm => hb b (by simp [hbm]))
      rw [hrec]


theorem encVals_length :
    ∀ n bs, List.length bs ≤ n → (encVals bs).length * 5 / 8 = bs.length := by
  intro n
  induction n with
  | zero =>
    intro bs hlen
    have : bs = [] := List.length_eq_zero.mp (by omega)
    subst this
    rfl
  | succ n ih =>
    intro bs hlen
    rcases bs with _ | ⟨b0, _ | ⟨b1, _ | ⟨b2, _ | ⟨b3, _ | ⟨b4, rest⟩⟩⟩⟩⟩
    · rfl
    · simp [encVals]
    · simp [encVals]
    · simp [encVals]
    · simp [encVals]
    · have hrec := ih rest (by simp at hlen; omega)
      simp only [encVals, List.length_cons]
      omega

theorem val_or_lt (a b : Nat) (ha : a < 32) (hb : b < 32) : a ||| b < 32 := by
  have h32 : (32 : Nat) = 2 ^ 5 := by norm_num
  rw [h32] at ha hb ⊢
  exact Nat.or_lt_two_pow ha hb

theorem valA_lt (x : Nat) : (x &&& 248) >>> 3 < 32 := by
  rw [m248]; omega

theorem valB_lt (x y : Nat) :
    ((x &&& 7) <<< 2) ||| ((y &&& 192) >>> 6) < 32 := by
  apply val_or_lt
  · rw [Nat.shiftLeft_eq, m7]; norm_num; omega
  · rw [m192]; omega

theorem valB1_lt (x : Nat) : (x &&& 7) <<< 2 < 32 := by
  rw [Nat.shiftLeft_eq, m7]; norm_num; omega

theorem valC_lt (x : Nat) : (x &&& 62) >>> 1 < 32 := by
  rw [m62]; omega

theorem valD_lt (x y : Nat) :
    ((x &&& 1) <<< 4) ||| ((y &&& 240) >>> 4) < 32 := by
  apply val_or_lt
  · rw [Nat.shiftLeft_eq, m1]; norm_num; omega
  · rw [m240]; omega

theorem valD1_lt (x : Nat) : (x &&& 1) <<< 4 < 32 := by
  rw [Nat.shiftLeft_eq, m1]; norm_num; omega

theorem valE_lt (x y : Nat) (hy : y < 256) :
    ((x &&& 15) <<< 1) ||| (y >>> 7) < 32 := by
  apply val_or_lt
  · rw [Nat.shiftLeft_eq, m15]; norm_num; omega
  · rw [Nat.shiftRight_eq_div_pow]; norm_num; omega

theorem valE1_lt (x : Nat) : (x &&& 15) <<< 1 < 32 := by
  rw [Nat.shiftLeft_eq, m15]; norm_num; omega

theorem valF_lt (x : Nat) : (x &&& 124) >>> 2 < 32 := by
  rw [m124]; omega

theorem valG_lt (x y : Nat) :
    ((x &&& 3) <<< 3) ||| ((y &&& 224) >>> 5) < 32 := by
  apply val_or_lt
  · rw [Nat.shiftLeft_eq, m3]; norm_num; omega
  · rw [m224]; omega

theorem valG1_lt (x : Nat) : (x &&& 3) <<< 3 < 32 := by
  rw [Nat.shiftLeft_eq, m3]; norm_num; omega

theorem valH_lt (x : Nat) : x &&& 31 < 32 := by
  rw [m31]; omega

theorem encVals_lt :
    ∀ n bs, List.length bs ≤ n → (∀ b ∈ bs, b < 256) →
      ∀ v ∈ encVals bs, v < 32 := by
  intro n
  induction n with
  | zero =>
    intro bs hlen hb
    have : bs = [] := List.length_eq_zero.mp (by omega)
    subst this
    simp [encVals]
  | succ n ih =>
    intro bs hlen hb v hv
    rcases bs with _ | ⟨b0, _ | ⟨b1, _ | ⟨b2, _ | ⟨b3, _ | ⟨b4, rest⟩⟩⟩⟩⟩
    · simp [encVals] at hv
    · simp only [encVals, List.mem_cons, List.not_mem_nil, or_false] at hv
      rcases hv with rfl | rfl
      · exact valA_lt b0
      · exact valB1_lt b0
    · simp only [encVals, List.mem_cons, List.not_mem_nil, or_false] at hv
      rcases hv with rfl | rfl | rfl | rfl
      · exact valA_lt b0
      · exact valB_lt b0 b1
      · exact valC_lt b1
      · exact valD1_lt b1
    · simp only [encVals, List.mem_cons, List.not_mem_nil, or_false] at hv
      rcases hv with rfl | rfl | rfl | rfl | rfl
      · exact valA_lt b0
      · exact valB_lt b0 b1
      · exact valC_lt b1
      · exact valD_lt b1 b2
      · exact valE1_lt b2
    · simp only [encVals, List.mem_cons, List.not_mem_nil, or_false] at hv
      rcases hv with rfl | rfl | rfl | rfl | rfl | rfl | rfl
      · exact valA_lt b0
      · exact valB_lt b0 b1
      · exact valC_lt b1
      · exact valD_lt b1 b2
      · exact valE_lt b2 b3 (hb b3 (by simp))
      · exact valF_lt b3
      · exact valG1_lt b3
    · simp only [encVals, List.mem_cons] at hv
      rcases hv with rfl | rfl | rfl | rfl | rfl | rfl | rfl | rfl | hrest
      · exact valA_lt b0
      · exact valB_lt b0 b1
      · exact valC_lt b1
      · exact valD_lt b1 b2
      · exact valE_lt b2 b3 (hb b3 (by simp))
      · exact valF_lt b3
      · exact valG_lt b3 b4
      · exact valH_lt b4
      · exact ih rest (by simp at hlen; omega)
          (fun b hbm => hb b (by simp [hbm])) v hrest

theorem b32charVal_chr : ∀ v : Nat, v < 32 → b32charVal (b32chr v) = some v := by
  decide

theorem b32chr_ascii : ∀ v : Nat, v < 32 → (b32chr v).toNat < 128 := by decide

theorem b32chr_ne_pad : ∀ v : Nat, v < 32 → b32chr v ≠ '=' := by decide

theorem mapM_b32chr (vs : List Nat) (h : ∀ v ∈ vs, v < 32) :
    (vs.map b32chr).mapM b32charVal = some vs := by
  induction vs with
  | nil => rfl
  | cons v vs ih =>
    simp only [List.map_cons, List.mapM_cons]
    rw [b32charVal_chr v (h v (by simp))]
    rw [ih (fun x hx => h x (by simp [hx]))]
    rfl

theorem takeWhile_pad_nil (l : List Char) (h : ∀ c ∈ l, c ≠ '=') :
    l.takeWhile (fun c => c == '=') = [] := by
  cases l with
  | nil => rfl
  | cons c rest =>
    have : (c == '=') = false := by
      have := h c (by simp)
      simpa using this
    simp [List.takeWhile_cons, this]

theorem b32_decode_encode (bs : List Nat) (h : ∀ b ∈ bs, b < 256) :
    b32decode (String.mk (b32encode bs)) = some bs := by
  have hlt := encVals_lt bs.length bs (le_refl _) h
  unfold b32decode b32encode
  have hdata : (String.mk ((encVals bs).map b32chr)).data =
      (encVals bs).map b32chr := rfl
  rw [hdata]
  rw [if_pos (by
    rw [List.all_eq_true]
    intro c hc
    rw [List.mem_map] at hc
    obtain ⟨v, hv, hcv⟩ := hc
    subst hcv
    simpa using b32chr_ascii v (hlt v hv))]
  rw [mapM_b32chr _ hlt]
  have htr : trailingEqCount ((encVals bs).map b32chr) = 0 := by
    unfold trailingEqCount
    rw [takeWhile_pad_nil]
    · rfl
    · intro c hc
      rw [List.mem_reverse, List.mem_map] at hc
      obtain ⟨v, hv, hcv⟩ := hc
      subst hcv
      exact b32chr_ne_pad v (hlt v hv)
  rw [htr]
  simp only [Nat.min_zero, Nat.sub_zero, List.length_map]
  rw [encVals_length bs.length bs (le_refl _)]
  rw [decVals_encVals_take bs.length bs (le_refl _) h]

/-- `applyParam` on a `digits` pair parses the value. -/
theorem applyParam_digits (st : UrlParams) (v : String) :
    applyParam st ("digits", v) =
      (match parseNat64 v with
       | some d => .ok { st with digits := d }
       | none => .error (.Digits v)) := rfl

/-- `applyParam` on a `secret` pair base32-decodes the value. -/
theorem applyParam_secret (st : UrlParams) (v : String) :
    applyParam st ("secret", v) =
      (match b32decode v with
       | some b => .ok { st with secret := b }
       | none => .error (.Secret v)) := rfl

/-- `from_url_core` on a URL with scheme `otpauth` and host `totp` runs the
body. -/
theorem from_url_core_totp (p : String) (q : List (String × String)) :
    TOTP.from_url_core ⟨"otpauth", some "totp", p, q⟩ =
      some (TOTP.from_url_body ⟨"otpauth", some "totp", p, q⟩) := rfl

/-- `from_url_body` with path `/acc` reduces to the query loop followed by
the empty-secret check and the constructor. -/
theorem from_url_body_acc (q : List (String × String)) :
    TOTP.from_url_body ⟨"otpauth", some "totp", "/acc", q⟩ =
      (match foldParams q ⟨.SHA1, 6, 30, [], none⟩ with
       | .error e => .error e
       | .ok st =>
         if st.secret = [] then .error (.Secret "")
         else TOTP.new st.algorithm st.digits 1 st.step st.secret "acc"
           st.issuer) := rfl

/-- C10: `from_url` forwards the parsed fields through the validating
constructor, so a well-formed `otpauth://totp` URI can fail with
`InvalidDigits` (digits parameter outside `[6,8]`), with `SecretTooSmall`
(secret decoding to 1–15 bytes, which the post-loop emptiness check does
not reject), and with `AccountName` (percent-decoded account name
containing `':'`). -/
theorem claim_C10 :
    (∀ d : Nat, d < M64 → ¬ (6 ≤ d ∧ d ≤ 8) →
      TOTP.from_url_core ⟨"otpauth", some "totp", "/acc",
        [("secret", "KRSXG5CTMVRXEZLUKN2XAZLSKNSWG4TFOQ"), ("digits", natToStr d)]⟩ =
        some (.error (.InvalidDigits d))) ∧
    (∀ s : String, ∀ buf : List Nat, b32decode s = some buf →
      0 < buf.length → buf.length < 16 →
      TOTP.from_url_core ⟨"otpauth", some "totp", "/acc", [("secret", s)]⟩ =
        some (.error (.SecretTooSmall (buf.length * 8)))) ∧
    TOTP.from_url_core ⟨"otpauth", some "totp", "/GitHub%3Atest",
      [("secret", "KRSXG5CTMVRXEZLUKN2XAZLSKNSWG4TFOQ")]⟩ =
      some (.error (.AccountName "GitHub:test")) := by
  have hsecK : applyParam ⟨.SHA1, 6, 30, [], none⟩
      ("secret", "KRSXG5CTMVRXEZLUKN2XAZLSKNSWG4TFOQ") =
      .ok ⟨.SHA1, 6, 30, testSecret, none⟩ := by decide
  refine ⟨fun d hd hnot => ?_, fun s buf hdec hpos hlt => ?_, by decide⟩
  · rw [from_url_core_totp, from_url_body_acc]
    have h2 : applyParam ⟨.SHA1, 6, 30, testSecret, none⟩
        ("digits", natToStr d) = .ok ⟨.SHA1, d, 30, testSecret, none⟩ := by
      rw [applyParam_digits, parseNat64_natToStr d hd]
    have hfold : foldParams
        [("secret", "KRSXG5CTMVRXEZLUKN2XAZLSKNSWG4TFOQ"), ("digits", natToStr d)]
        ⟨.SHA1, 6, 30, [], none⟩ = .ok ⟨.SHA1, d, 30, testSecret, none⟩ := by
      unfold foldParams
      rw [hsecK]
      unfold foldParams
      rw [h2]
      rfl
    rw [hfold]
    have hne : testSecret ≠ [] := by decide
    simp only [if_neg hne]
    unfold TOTP.new
    rw [if_pos hnot]
  · rw [from_url_core_totp, from_url_body_acc]
    have h1 : applyParam ⟨.SHA1, 6, 30, [], none⟩ ("secret", s) =
        .ok ⟨.SHA1, 6, 30, buf, none⟩ := by
      rw [applyParam_secret, hdec]
    have hfold : foldParams [("secret", s)] ⟨.SHA1, 6, 30, [], none⟩ =
        .ok ⟨.SHA1, 6, 30, buf, none⟩ := by
      unfold foldParams
      rw [h1]
      rfl
    rw [hfold]
    have hne : buf ≠ [] := by
      intro hb
      subst hb
      simp at hpos
    simp only [if_neg hne]
    unfold TOTP.new
    rw [if_neg (by simp), if_pos hlt]

/-- C10 witness. -/
theorem claim_C10_witness :
    TOTP.from_url_core ⟨"otpauth", some "totp", "/acc",
      [("secret", "KRSXG5CTMVRXEZLUKN2XAZLSKNSWG4TFOQ"), ("digits", natToStr 9)]⟩ =
      some (.error (.InvalidDigits 9)) ∧
    TOTP.from_url_core ⟨"otpauth", some "totp", "/acc", [("secret", "ME")]⟩ =
      some (.error (.SecretTooSmall ([97].length * 8))) :=
  ⟨claim_C10.1 9 (by decide) (by decide),
   claim_C10.2.1 "ME" [97] (by decide) (by decide) (by decide)⟩

set_option maxRecDepth 1000000 in
set_option maxHeartbeats 4000000 in
/-- C8: the three concrete vectors of the test suite: secret
`"TestSecretSuperSecret"`, `digits = 6`, `step = 1`, `time = 1000`. -/
theorem claim_C8 :
    TOTP.generate ⟨.SHA1, 6, 1, 1, testSecret, "", none⟩ 1000 = "659761" ∧
    TOTP.generate ⟨.SHA256, 6, 1, 1, testSecret, "", none⟩ 1000 = "076417" ∧
    TOTP.generate ⟨.SHA512, 6, 1, 1, testSecret, "", none⟩ 1000 = "473536" :=
  ⟨by decide, by decide, by decide⟩

/-- `takeWhile` keeps an entire prefix on which the predicate holds and
stops at a failing separator. -/
theorem takeWhile_append_sep {p : Char → Bool} :
    ∀ xs : List Char, ∀ y ys, (∀ x ∈ xs, p x = true) → p y = false →
      (xs ++ y :: ys).takeWhile p = xs := by
  intro xs
  induction xs with
  | nil => intro y ys _ hy; simp [List.takeWhile_cons, hy]
  | cons x xs ih =>
    intro y ys hall hy
    rw [List.cons_append, List.takeWhile_cons, if_pos (hall x (by simp))]
    rw [ih y ys (fun a ha => hall a (by simp [ha])) hy]

/-- `dropWhile` drops an entire prefix on which the predicate holds and
stops at a failing separator. -/
theorem dropWhile_append_sep {p : Char → Bool} :
    ∀ xs : List Char, ∀ y ys, (∀ x ∈ xs, p x = true) → p y = false →
      (xs ++ y :: ys).dropWhile p = y :: ys := by
  intro xs
  induction xs with
  | nil => intro y ys _ hy; simp [List.dropWhile_cons, hy]
  | cons x xs ih =>
    intro y ys hall hy
    rw [List.cons_append, List.dropWhile_cons, if_pos (hall x (by simp))]
    exact ih y ys (fun a ha => hall a (by simp [ha])) hy

/-- `takeWhile` keeps a list the predicate accepts everywhere. -/
theorem takeWhile_all {p : Char → Bool} :
    ∀ xs : List Char, (∀ x ∈ xs, p x = true) → xs.takeWhile p = xs := by
  intro xs
  induction xs with
  | nil => intro; rfl
  | cons x xs ih =>
    intro hall
    rw [List.takeWhile_cons, if_pos (hall x (by simp))]
    rw [ih (fun a ha => hall a (by simp [ha]))]

/-- `dropWhile` drops nothing when the predicate fails everywhere. -/
theorem dropWhile_none {p : Char → Bool} :
    ∀ xs : List Char, (∀ x ∈ xs, p x = false) → xs.dropWhile p = xs := by
  intro xs
  cases xs with
  | nil => intro; rfl
  | cons x xs => intro hall; rw [List.dropWhile_cons, if_neg (by simp [hall x (by simp)])]

/-- `splitSep` splits at a separator not occurring in the first segment. -/
theorem splitSep_append (sep : Char) :
    ∀ xs ys : List Char, (∀ x ∈ xs, (x == sep) = false) →
      splitSep sep (xs ++ sep :: ys) = xs :: splitSep sep ys := by
  intro xs
  induction xs with
  | nil => intro ys _; simp [splitSep]
  | cons x xs ih =>
    intro ys hall
    have hx : ¬ x = sep := by
      have := hall x (by simp)
      simpa using this
    rw [List.cons_append]
    rw [show splitSep sep (x :: (xs ++ sep :: ys)) =
        (if x = sep then [] :: splitSep sep (xs ++ sep :: ys)
         else match splitSep sep (xs ++ sep :: ys) with
         | [] => [[x]]
         | s :: ss => (x :: s) :: ss) from rfl]
    rw [if_neg hx, ih ys (fun a ha => hall a (by simp [ha]))]

/-- `splitSep` does not split a list free of the separator. -/
theorem splitSep_no (sep : Char) :
    ∀ xs : List Char, (∀ x ∈ xs, (x == sep) = false) →
      splitSep sep xs = [xs] := by
  intro xs
  induction xs with
  | nil => intro; rfl
  | cons x xs ih =>
    intro hall
    have hx : ¬ x = sep := by
      have := hall x (by simp)
      simpa using this
    rw [show splitSep sep (x :: xs) =
        (if x = sep then [] :: splitSep sep xs
         else match splitSep sep xs with
         | [] => [[x]]
         | s :: ss => (x :: s) :: ss) from rfl]
    rw [if_neg hx, ih (fun a ha => hall a (by simp [ha]))]

/-- Hexadecimal digits produced by `hexUpper` are unreserved characters. -/
theorem hexUpper_unres : ∀ n : Nat, n < 16 →
    isUnreservedByte (hexUpper n).toNat = true := by decide

/-- Every character emitted by `pctEncodeChar` is an unreserved character
or `'%'`. -/
theorem pctEncodeChar_unres_or_pct (c : Char) :
    ∀ x ∈ pctEncodeChar c, isUnreservedByte x.toNat = true ∨ x = '%' := by
  intro x hx
  unfold pctEncodeChar at hx
  split at hx
  · rcases List.mem_singleton.mp hx with rfl
    left
    assumption
  · rw [List.mem_cons] at hx
    rcases hx with rfl | hx
    · right; rfl
    rw [List.mem_cons] at hx
    rcases hx with rfl | hx
    · left; exact hexUpper_unres _ (by omega)
    rw [List.mem_singleton] at hx
    subst hx
    left
    exact hexUpper_unres _ (by omega)

/-- Characters of a percent-encoded string are never URL delimiters. -/
theorem pctEnc_flat_safe (cs : List Char) :
    ∀ x ∈ cs.flatMap pctEncodeChar,
      (x == ':') = false ∧ (x == '/') = false ∧ (x == '?') = false ∧
      (x == '&') = false ∧ (x == '=') = false ∧ (x == '+') = false ∧
      (x == '#') = false := by
  intro x hx
  rw [List.mem_flatMap] at hx
  obtain ⟨c, _, hxc⟩ := hx
  rcases pctEncodeChar_unres_or_pct c x hxc with hu | rfl
  · refine ⟨?_, ?_, ?_, ?_, ?_, ?_, ?_⟩ <;>
      (rw [beq_eq_false_iff_ne]; intro heq; subst heq;
       exact absurd hu (by decide))
  · exact ⟨by decide, by decide, by decide, by decide, by decide, by decide,
      by decide⟩

/-- Base32 alphabet characters are never URL delimiters, `'%'`, `'='` or
lowercase. -/
theorem b32chr_safe : ∀ v : Nat, v < 32 →
    ((b32chr v == ':') = false ∧ (b32chr v == '/') = false ∧
     (b32chr v == '?') = false ∧ (b32chr v == '&') = false ∧
     (b32chr v == '=') = false ∧ (b32chr v == '+') = false ∧
     (b32chr v == '%') = false) := by decide

/-- Digit characters are never URL delimiters, `'%'` or `'+'`. -/
theorem digit_safe (c : Char) (h : c.isDigit = true) :
    (c == ':') = false ∧ (c == '/') = false ∧ (c == '?') = false ∧
    (c == '&') = false ∧ (c == '=') = false ∧ (c == '+') = false ∧
    (c == '%') = false := by
  refine ⟨?_, ?_, ?_, ?_, ?_, ?_, ?_⟩ <;>
    (rw [beq_eq_false_iff_ne]; intro heq; subst heq;
     exact absurd h (by decide))

/-- `hexVal` inverts `hexUpper` on nibbles. -/
theorem hexVal_hexUpper : ∀ n : Nat, n < 16 →
    hexVal (hexUpper n) = some n := by decide

/-- `pctDecodeL` copies a non-`'%'` head character. -/
theorem pctDecodeL_cons_ne (c : Char) (rest : List Char) (hc : c ≠ '%') :
    pctDecodeL (c :: rest) = (pctDecodeL rest).map (fun l => c :: l) := by
  unfold pctDecodeL
  split
  · rename_i heq; cases heq
  · rename_i h1 h2 r heq
    rw [List.cons.injEq] at heq
    exact absurd heq.1 hc
  · rename_i h1 heq
    rw [List.cons.injEq] at heq
    exact absurd heq.1 hc
  · rename_i heq
    rw [List.cons.injEq] at heq
    exact absurd heq.1 hc
  · rename_i c2 r heq
    rw [List.cons.injEq] at heq
    rw [heq.1, heq.2]
    conv_rhs => rw [← pctDecodeL.eq_def]

/-- `pctDecodeL` decodes a well-formed `%XX` sequence with an ASCII value. -/
theorem pctDecodeL_pct (hi lo : Nat) (hhi : hi < 16) (hlo : lo < 16)
    (hb : hi * 16 + lo < 128) (rest : List Char) :
    pctDecodeL ('%' :: hexUpper hi :: hexUpper lo :: rest) =
      (pctDecodeL rest).map (fun l => Char.ofNat (hi * 16 + lo) :: l) := by
  rw [show pctDecodeL ('%' :: hexUpper hi :: hexUpper lo :: rest) =
      (match hexVal (hexUpper hi), hexVal (hexUpper lo) with
       | some a, some b =>
         if a * 16 + b < 128 then
           (pctDecodeL rest).map (fun l => Char.ofNat (a * 16 + b) :: l)
         else none
       | _, _ =>
         (pctDecodeL (hexUpper hi :: hexUpper lo :: rest)).map
           (fun l => '%' :: l)) from rfl]
  rw [hexVal_hexUpper hi hhi, hexVal_hexUpper lo hlo]
  show (if hi * 16 + lo < 128 then
      (pctDecodeL rest).map (fun l => Char.ofNat (hi * 16 + lo) :: l)
    else none) = _
  rw [if_pos hb]

/-- `pctDecodeL` inverts the byte-wise percent-encoding of an ASCII
character sequence. -/
theorem pctDecode_encode :
    ∀ cs : List Char, (∀ c ∈ cs, c.toNat < 128) →
      pctDecodeL (cs.flatMap pctEncodeChar) = some cs := by
  intro cs
  induction cs with
  | nil => intro; rfl
  | cons c rest ih =>
    intro h
    have hc : c.toNat < 128 := h c (by simp)
    have hrec := ih (fun x hx => h x (by simp [hx]))
    rw [List.flatMap_cons]
    by_cases hu : isUnreservedByte c.toNat = true
    · rw [show pctEncodeChar c = [c] by simp [pctEncodeChar, hu]]
      have hcp : c ≠ '%' := by
        intro heq
        subst heq
        exact absurd hu (by decide)
      rw [List.singleton_append, pctDecodeL_cons_ne c _ hcp, hrec]
      rfl
    · rw [show pctEncodeChar c =
        ['%', hexUpper (c.toNat / 16 % 16), hexUpper (c.toNat % 16)] by
        simp [pctEncodeChar, hu]]
      rw [show (['%', hexUpper (c.toNat / 16 % 16), hexUpper (c.toNat % 16)] :
          List Char) ++ rest.flatMap pctEncodeChar =
          '%' :: hexUpper (c.toNat / 16 % 16) :: hexUpper (c.toNat % 16) ::
          rest.flatMap pctEncodeChar from rfl]
      rw [pctDecodeL_pct _ _ (by omega) (by omega) (by omega), hrec]
      have harith : c.toNat / 16 % 16 * 16 + c.toNat % 16 = c.toNat := by
        omega
      rw [harith, Char.ofNat_toNat]
      rfl

/-- `queryDecodeL` copies a head character that is neither `'%'` nor
`'+'`. -/
theorem queryDecodeL_cons_ne (c : Char) (rest : List Char) (hc : c ≠ '%')
    (hp : c ≠ '+') :
    queryDecodeL (c :: rest) = c :: queryDecodeL rest := by
  unfold queryDecodeL
  split
  · rename_i heq; cases heq
  · rename_i heq
    rw [List.cons.injEq] at heq
    exact absurd heq.1 hp
  · rename_i h1 h2 r heq
    rw [List.cons.injEq] at heq
    exact absurd heq.1 hc
  · rename_i c2 r h heq
    rw [List.cons.injEq] at heq
    rw [heq.1, heq.2]
    conv_rhs => rw [← queryDecodeL.eq_def]

/-- `queryDecodeL` decodes a well-formed `%XX` sequence with an ASCII
value. -/
theorem queryDecodeL_pct (hi lo : Nat) (hhi : hi < 16) (hlo : lo < 16)
    (hb : hi * 16 + lo < 128) (rest : List Char) :
    queryDecodeL ('%' :: hexUpper hi :: hexUpper lo :: rest) =
      Char.ofNat (hi * 16 + lo) :: queryDecodeL rest := by
  rw [show queryDecodeL ('%' :: hexUpper hi :: hexUpper lo :: rest) =
      (match hexVal (hexUpper hi), hexVal (hexUpper lo) with
       | some a, some b =>
         (if a * 16 + b < 128 then Char.ofNat (a * 16 + b)
          else Char.ofNat 65533) :: queryDecodeL rest
       | _, _ =>
         '%' :: queryDecodeL (hexUpper hi :: hexUpper lo :: rest)) from rfl]
  rw [hexVal_hexUpper hi hhi, hexVal_hexUpper lo hlo]
  show (if hi * 16 + lo < 128 then Char.ofNat (hi * 16 + lo)
      else Char.ofNat 65533) :: queryDecodeL rest = _
  rw [if_pos hb]

/-- `queryDecodeL` inverts the byte-wise percent-encoding of an ASCII
character sequence. -/
theorem queryDecode_encode :
    ∀ cs : List Char, (∀ c ∈ cs, c.toNat < 128) →
      queryDecodeL (cs.flatMap pctEncodeChar) = cs := by
  intro cs
  induction cs with
  | nil => intro; rfl
  | cons c rest ih =>
    intro h
    have hc : c.toNat < 128 := h c (by simp)
    have hrec := ih (fun x hx => h x (by simp [hx]))
    rw [List.flatMap_cons]
    by_cases hu : isUnreservedByte c.toNat = true
    · rw [show pctEncodeChar c = [c] by simp [pctEncodeChar, hu]]
      have hcp : c ≠ '%' := by
        intro heq
        subst heq
        exact absurd hu (by decide)
      have hpl : c ≠ '+' := by
        intro heq
        subst heq
        exact absurd hu (by decide)
      rw [List.singleton_append, queryDecodeL_cons_ne c _ hcp hpl, hrec]
    · rw [show pctEncodeChar c =
        ['%', hexUpper (c.toNat / 16 % 16), hexUpper (c.toNat % 16)] by
        simp [pctEncodeChar, hu]]
      rw [show (['%', hexUpper (c.toNat / 16 % 16), hexUpper (c.toNat % 16)] :
          List Char) ++ rest.flatMap pctEncodeChar =
          '%' :: hexUpper (c.toNat / 16 % 16) :: hexUpper (c.toNat % 16) ::
          rest.flatMap pctEncodeChar from rfl]
      rw [queryDecodeL_pct _ _ (by omega) (by omega) (by omega), hrec]
      have harith : c.toNat / 16 % 16 * 16 + c.toNat % 16 = c.toNat := by
        omega
      rw [harith, Char.ofNat_toNat]

/-- `queryDecodeL` is the identity on strings without `'%'` and `'+'`. -/
theorem queryDecodeL_id :
    ∀ cs : List Char, (∀ c ∈ cs, c ≠ '%' ∧ c ≠ '+') →
      queryDecodeL cs = cs := by
  intro cs
  induction cs with
  | nil => intro; rfl
  | cons c rest ih =>
    intro h
    rw [queryDecodeL_cons_ne c rest (h c (by simp)).1 (h c (by simp)).2]
    rw [ih (fun x hx => h x (by simp [hx]))]

/-- `parseUrl` on the exact shape `get_url` produces: scheme `otpauth`,
host `totp`, path `/P`, query `Q`. -/
theorem parseUrl_otpauth (P Q : List Char)
    (hP : ∀ c ∈ P, (c != '?') = true) :
    parseUrl (String.mk ("otpauth://totp/".data ++ (P ++ '?' :: Q))) =
      some ⟨"otpauth", some "totp", String.mk ('/' :: P), queryPairs Q⟩ := by
  have h1 : List.takeWhile (fun c => c != '?') (P ++ '?' :: Q) = P :=
    takeWhile_append_sep P '?' Q hP (by simp)
  have h2 : List.dropWhile (fun c => c != '?') (P ++ '?' :: Q) = '?' :: Q :=
    dropWhile_append_sep P '?' Q hP (by simp)
  calc parseUrl (String.mk ("otpauth://totp/".data ++ (P ++ '?' :: Q)))
      = some ⟨"otpauth", some "totp",
          String.mk ('/' ::
            List.takeWhile (fun c => c != '?') (P ++ '?' :: Q)),
          queryPairs (List.drop 1
            (List.dropWhile (fun c => c != '?') (P ++ '?' :: Q)))⟩ := rfl
    _ = some ⟨"otpauth", some "totp", String.mk ('/' :: P),
          queryPairs Q⟩ := by
        rw [h1, h2]
        rfl

/-- Bool conversion: `==` false gives `!=` true. -/
theorem ne_to_bne {c d : Char} (h : (c == d) = false) : (c != d) = true := by
  simp [bne, h]

/-- `contains` is false when no element equals the needle. -/
theorem contains_eq_false (l : List Char) (a : Char)
    (h : ∀ c ∈ l, (c == a) = false) : l.contains a = false := by
  induction l with
  | nil => rfl
  | cons c rest ih =>
    have hc : ¬ a = c := by
      have := h c (by simp)
      simp at this
      exact fun heq => this heq.symm
    simp only [List.contains_cons, Bool.or_eq_false_iff]
    exact ⟨by simp [hc], ih (fun x hx => h x (by simp [hx]))⟩

/-- `queryPairs` splits off a first `&`-free, nonempty segment. -/
theorem queryPairs_append (seg rest : List Char)
    (h : ∀ c ∈ seg, (c == '&') = false) (hne : seg ≠ []) :
    queryPairs (seg ++ '&' :: rest) =
      (String.mk (queryDecodeL (seg.takeWhile (fun c => c != '='))),
       String.mk (queryDecodeL ((seg.dropWhile (fun c => c != '=')).drop 1)))
      :: queryPairs rest := by
  unfold queryPairs
  rw [splitSep_append '&' seg rest h]
  simp [List.filter_cons, hne]

/-- `queryPairs` on a final `&`-free, nonempty segment. -/
theorem queryPairs_last (seg : List Char)
    (h : ∀ c ∈ seg, (c == '&') = false) (hne : seg ≠ []) :
    queryPairs seg =
      [(String.mk (queryDecodeL (seg.takeWhile (fun c => c != '='))),
        String.mk (queryDecodeL ((seg.dropWhile (fun c => c != '=')).drop 1)))] := by
  unfold queryPairs
  rw [splitSep_no '&' seg h]
  simp [List.filter_cons, hne]

/-- Membership gives `contains = true`. -/
theorem contains_eq_true (l : List Char) (a : Char) (h : a ∈ l) :
    l.contains a = true := by
  induction l with
  | nil => cases h
  | cons c rest ih =>
    rw [List.mem_cons] at h
    simp only [List.contains_cons, Bool.or_eq_true]
    rcases h with rfl | h
    · left; simp
    · right; exact ih h

/-- `from_url_body` on a colon-free path `/A` reduces to account decoding,
the query loop, the emptiness check and the constructor. -/
theorem from_url_body_eval (A : List Char) (qs : List (String × String))
    (hA1 : ∀ c ∈ A, (c == '/') = false) (hA2 : ∀ c ∈ A, (c == ':') = false) :
    TOTP.from_url_body ⟨"otpauth", some "totp", String.mk ('/' :: A), qs⟩ =
      (match pctDecodeL A with
       | none => .error (.AccountName (String.mk A))
       | some acc =>
         match foldParams qs ⟨.SHA1, 6, 30, [], none⟩ with
         | .error e => .error e
         | .ok st =>
           if st.secret = [] then .error (.Secret "")
           else TOTP.new st.algorithm st.digits 1 st.step st.secret
             (String.mk acc) st.issuer) := by
  have hpath : (String.mk ('/' :: A)).data.dropWhile (fun c => c == '/') = A := by
    rw [show (String.mk ('/' :: A)).data = '/' :: A from rfl]
    rw [List.dropWhile_cons, if_pos (by simp)]
    exact dropWhile_none A hA1
  have hcol : A.contains ':' = false := contains_eq_false A ':' hA2
  simp only [TOTP.from_url_body, hpath, hcol]
  rfl

/-- `from_url_body` on a path `/I:A` with colon-free `I` and `A` reduces to
issuer and account decoding, the query loop, the emptiness check and the
constructor. -/
theorem from_url_body_eval_iss (I A : List Char) (qs : List (String × String))
    (hI1 : ∀ c ∈ I, (c == '/') = false) (hI2 : ∀ c ∈ I, (c == ':') = false)
    (hA1 : ∀ c ∈ A, (c == '/') = false) (hA2 : ∀ c ∈ A, (c == ':') = false) :
    TOTP.from_url_body
        ⟨"otpauth", some "totp", String.mk ('/' :: (I ++ ':' :: A)), qs⟩ =
      (match pctDecodeL I with
       | none => .error (.IssuerDecoding (String.mk I))
       | some iss =>
         match pctDecodeL A with
         | none => .error (.AccountName (String.mk A))
         | some acc =>
           match foldParams qs ⟨.SHA1, 6, 30, [], some (String.mk iss)⟩ with
           | .error e => .error e
           | .ok st =>
             if st.secret = [] then .error (.Secret "")
             else TOTP.new st.algorithm st.digits 1 st.step st.secret
               (String.mk acc) st.issuer) := by
  have hpath : (String.mk ('/' :: (I ++ ':' :: A))).data.dropWhile
      (fun c => c == '/') = I ++ ':' :: A := by
    rw [show (String.mk ('/' :: (I ++ ':' :: A))).data =
      '/' :: (I ++ ':' :: A) from rfl]
    rw [List.dropWhile_cons, if_pos (by simp)]
    apply dropWhile_none
    intro c hc
    rw [List.mem_append, List.mem_cons] at hc
    rcases hc with hc | hc | hc
    · exact hI1 c hc
    · subst hc; rfl
    · exact hA1 c hc
  have hcol : (I ++ ':' :: A).contains ':' = true :=
    contains_eq_true _ _ (by rw [List.mem_append, List.mem_cons]; right; left; rfl)
  have htk : (I ++ ':' :: A).takeWhile (fun c => c != ':') = I :=
    takeWhile_append_sep I ':' A (fun c hc => ne_to_bne (hI2 c hc)) (by simp)
  have hdr : ((I ++ ':' :: A).dropWhile (fun c => c != ':')).drop 1 = A := by
    rw [dropWhile_append_sep I ':' A (fun c hc => ne_to_bne (hI2 c hc)) (by simp)]
    rfl
  have hdr2 : A.dropWhile (fun c => c == ':') = A := dropWhile_none A hA2
  simp only [TOTP.from_url_body, hpath, hcol, htk, hdr, hdr2]
  simp only [if_true]
  rcases hI : pctDecodeL I with _ | iss
  · simp [decodeLabelIssuer, hI]
  · simp only [decodeLabelIssuer, hI]

/-- `decodeLabelIssuer` on `some` reduces through the percent decoder. -/
theorem decodeLabelIssuer_some (l : List Char) :
    decodeLabelIssuer (some l) =
      (match pctDecodeL l with
       | none => .error (.IssuerDecoding (String.mk l))
       | some d => .ok (some (String.mk d))) := rfl
/-- A query segment `K=V` with an `'='`-free, undecoded key splits into the
key and the decoded value. -/
theorem segPair (K V : List Char)
    (hK : ∀ c ∈ K, (c != '=') = true)
    (hKd : ∀ c ∈ K, c ≠ '%' ∧ c ≠ '+') :
    (String.mk (queryDecodeL ((K ++ '=' :: V).takeWhile (fun c => c != '='))),
     String.mk (queryDecodeL (((K ++ '=' :: V).dropWhile
       (fun c => c != '=')).drop 1)))
    = (String.mk K, String.mk (queryDecodeL V)) := by
  rw [takeWhile_append_sep K '=' V hK (by simp),
      dropWhile_append_sep K '=' V hK (by simp)]
  rw [queryDecodeL_id K hKd]
  rfl

/-- Base32 alphabet characters are neither `'&'` nor `'%'` nor `'+'`. -/
theorem b32chr_amp : ∀ v : Nat, v < 32 →
    ((b32chr v == '&') = false ∧ b32chr v ≠ '%' ∧ b32chr v ≠ '+') := by
  decide

/-- Algorithm names contain neither `'&'` nor `'%'` nor `'+'`. -/
theorem algName_amp : ∀ a : Algorithm, ∀ c ∈ a.name.data,
    ((c == '&') = false ∧ c ≠ '%' ∧ c ≠ '+') := by
  intro a
  cases a <;> decide

/-- Digit characters are neither `'&'` nor `'%'` nor `'+'`. -/
theorem digit_amp (c : Char) (h : c.isDigit = true) :
    (c == '&') = false ∧ c ≠ '%' ∧ c ≠ '+' := by
  obtain ⟨_, _, _, h4, _, h6, h7⟩ := digit_safe c h
  exact ⟨h4, beq_eq_false_iff_ne.mp h7, beq_eq_false_iff_ne.mp h6⟩

/-- `queryPairs` on the three-parameter query emitted by `get_url` without
an issuer. -/
theorem queryPairs_kv3 (B D N : List Char)
    (hB : ∀ c ∈ B, (c == '&') = false ∧ c ≠ '%' ∧ c ≠ '+')
    (hD : ∀ c ∈ D, (c == '&') = false ∧ c ≠ '%' ∧ c ≠ '+')
    (hN : ∀ c ∈ N, (c == '&') = false ∧ c ≠ '%' ∧ c ≠ '+') :
    queryPairs (("secret".data ++ '=' :: B) ++ '&' ::
                (("digits".data ++ '=' :: D) ++ '&' ::
                 ("algorithm".data ++ '=' :: N))) =
      [("secret", String.mk (queryDecodeL B)),
       ("digits", String.mk (queryDecodeL D)),
       ("algorithm", String.mk (queryDecodeL N))] := by
  have h1 : ∀ c ∈ ("secret".data ++ '=' :: B), (c == '&') = false := by
    intro c hc
    rw [List.mem_append] at hc
    rcases hc with hc | hc
    · exact (show ∀ c ∈ "secret".data, (c == '&') = false by decide) c hc
    rw [List.mem_cons] at hc
    rcases hc with rfl | hc
    · decide
    · exact (hB c hc).1
  have h2 : ∀ c ∈ ("digits".data ++ '=' :: D), (c == '&') = false := by
    intro c hc
    rw [List.mem_append] at hc
    rcases hc with hc | hc
    · exact (show ∀ c ∈ "digits".data, (c == '&') = false by decide) c hc
    rw [List.mem_cons] at hc
    rcases hc with rfl | hc
    · decide
    · exact (hD c hc).1
  have h3 : ∀ c ∈ ("algorithm".data ++ '=' :: N), (c == '&') = false := by
    intro c hc
    rw [List.mem_append] at hc
    rcases hc with hc | hc
    · exact (show ∀ c ∈ "algorithm".data, (c == '&') = false by decide) c hc
    rw [List.mem_cons] at hc
    rcases hc with rfl | hc
    · decide
    · exact (hN c hc).1
  rw [queryPairs_append _ _ h1 (by simp)]
  rw [queryPairs_append _ _ h2 (by simp)]
  rw [queryPairs_last _ h3 (by simp)]
  rw [segPair "secret".data B (by decide) (by decide)]
  rw [segPair "digits".data D (by decide) (by decide)]
  rw [segPair "algorithm".data N (by decide) (by decide)]

/-- `queryPairs` on the four-parameter query emitted by `get_url` with an
issuer. -/
theorem queryPairs_kv4 (Iv B D N : List Char)
    (hIv : ∀ c ∈ Iv, (c == '&') = false)
    (hB : ∀ c ∈ B, (c == '&') = false ∧ c ≠ '%' ∧ c ≠ '+')
    (hD : ∀ c ∈ D, (c == '&') = false ∧ c ≠ '%' ∧ c ≠ '+')
    (hN : ∀ c ∈ N, (c == '&') = false ∧ c ≠ '%' ∧ c ≠ '+') :
    queryPairs (("issuer".data ++ '=' :: Iv) ++ '&' ::
                (("secret".data ++ '=' :: B) ++ '&' ::
                 (("digits".data ++ '=' :: D) ++ '&' ::
                  ("algorithm".data ++ '=' :: N)))) =
      ("issuer", String.mk (queryDecodeL Iv)) ::
      [("secret", String.mk (queryDecodeL B)),
       ("digits", String.mk (queryDecodeL D)),
       ("algorithm", String.mk (queryDecodeL N))] := by
  have h0 : ∀ c ∈ ("issuer".data ++ '=' :: Iv), (c == '&') = false := by
    intro c hc
    rw [List.mem_append] at hc
    rcases hc with hc | hc
    · exact (show ∀ c ∈ "issuer".data, (c == '&') = false by decide) c hc
    rw [List.mem_cons] at hc
    rcases hc with rfl | hc
    · decide
    · exact hIv c hc
  rw [queryPairs_append _ _ h0 (by simp)]
  rw [queryPairs_kv3 B D N hB hD hN]
  rw [segPair "issuer".data Iv (by decide) (by decide)]
/-- `applyParam` on an `algorithm` pair carrying an algorithm's own name. -/
theorem applyParam_algorithm_name (st : UrlParams) (a : Algorithm) :
    applyParam st ("algorithm", a.name) = .ok { st with algorithm := a } := by
  cases a <;> rfl

/-- `applyParam` on an `issuer` pair matching the label issuer. -/
theorem applyParam_issuer_eq (st : UrlParams) (v : String)
    (h : st.issuer = some v) :
    applyParam st ("issuer", v) = .ok { st with issuer := some v } := by
  have hred : applyParam st ("issuer", v) =
      (match st.issuer with
       | some i =>
         if v ≠ i then .error (.IssuerMismatch i v)
         else .ok { st with issuer := some v }
       | none => .ok { st with issuer := some v }) := rfl
  rw [hred, h]
  simp

/-- `TOTP.new` succeeds on validated inputs, returning the fields
unchanged. -/
theorem new_ok (alg : Algorithm) (digits skew step : Nat) (secret : List Nat)
    (acc : String) (iss : Option String)
    (h6 : 6 ≤ digits) (h8 : digits ≤ 8) (hs : 16 ≤ secret.length)
    (hacc : acc.data.contains ':' = false)
    (hiss : ∀ i, iss = some i → i.data.contains ':' = false) :
    TOTP.new alg digits skew step secret acc iss =
      .ok ⟨alg, digits, skew, step, secret, acc, iss⟩ := by
  unfold TOTP.new
  rw [if_neg (by omega)]
  rw [if_neg (by omega)]
  rw [if_neg (by rw [hacc]; simp)]
  rcases iss with _ | i
  · rfl
  · simp
    intro hm
    exact absurd ((contains_eq_true i.data ':' hm).symm.trans (hiss i rfl))
      (by decide)
/-- The serialized URL of an issuer-free entity, split into the parts
`from_url` will consume. -/
theorem get_url_data_none (t : TOTP) (h : t.issuer = none) :
    t.get_url = String.mk ("otpauth://totp/".data ++
      ((t.account_name.data.flatMap pctEncodeChar) ++ '?' ::
        (("secret".data ++ '=' :: b32encode t.secret) ++ '&' ::
         (("digits".data ++ '=' :: natDigitsAux (t.digits + 1) t.digits) ++
          '&' :: ("algorithm".data ++ '=' :: t.algorithm.name.data))))) := by
  apply String.ext
  simp [TOTP.get_url, h, pctEncode, TOTP.to_secret_base32, b32encode,
    natToStr, String.data_append, List.append_assoc]

/-- The serialized URL of an entity with an issuer, split into the parts
`from_url` will consume. -/
theorem get_url_data_some (t : TOTP) (i : String) (h : t.issuer = some i) :
    t.get_url = String.mk ("otpauth://totp/".data ++
      (((i.data.flatMap pctEncodeChar) ++ ':' ::
        (t.account_name.data.flatMap pctEncodeChar)) ++ '?' ::
        (("issuer".data ++ '=' :: (i.data.flatMap pctEncodeChar)) ++ '&' ::
         (("secret".data ++ '=' :: b32encode t.secret) ++ '&' ::
          (("digits".data ++ '=' :: natDigitsAux (t.digits + 1) t.digits) ++
           '&' :: ("algorithm".data ++ '=' :: t.algorithm.name.data)))))) := by
  apply String.ext
  simp [TOTP.get_url, h, pctEncode, TOTP.to_secret_base32, b32encode,
    natToStr, String.data_append, List.append_assoc]
/-- `from_url_body` on a path `/I:A` once both decoders are known to
succeed. -/
theorem from_url_body_eval_iss2 (I A iss acc : List Char)
    (qs : List (String × String))
    (hI1 : ∀ c ∈ I, (c == '/') = false) (hI2 : ∀ c ∈ I, (c == ':') = false)
    (hA1 : ∀ c ∈ A, (c == '/') = false) (hA2 : ∀ c ∈ A, (c == ':') = false)
    (hpi : pctDecodeL I = some iss) (hpa : pctDecodeL A = some acc) :
    TOTP.from_url_body
        ⟨"otpauth", some "totp", String.mk ('/' :: (I ++ ':' :: A)), qs⟩ =
      (match foldParams qs ⟨.SHA1, 6, 30, [], some (String.mk iss)⟩ with
       | .error e => .error e
       | .ok st =>
         if st.secret = [] then .error (.Secret "")
         else TOTP.new st.algorithm st.digits 1 st.step st.secret
           (String.mk acc) st.issuer) := by
  rw [from_url_body_eval_iss I A qs hI1 hI2 hA1 hA2, hpi, hpa]

set_option maxHeartbeats 1000000 in
/-- C4: for a valid entity whose account name and issuer are ASCII and
colon-free, `from_url (get_url t)` succeeds with an entity whose secret,
algorithm and digits equal `t`'s and whose skew is 1. -/
theorem claim_C4 (t : TOTP)
    (h6 : 6 ≤ t.digits) (h8 : t.digits ≤ 8)
    (hsec : 16 ≤ t.secret.length)
    (hbytes : ∀ b ∈ t.secret, b < 256)
    (hacc : ∀ c ∈ t.account_name.data, c.toNat < 128)
    (haccc : t.account_name.data.contains ':' = false)
    (hiss : match t.issuer with
            | some i => (∀ c ∈ i.data, c.toNat < 128) ∧
                        i.data.contains ':' = false
            | none => True) :
    ∃ t2 : TOTP, TOTP.from_url t.get_url = some (.ok t2) ∧
      t2.secret = t.secret ∧ t2.algorithm = t.algorithm ∧
      t2.digits = t.digits ∧ t2.skew = 1 := by
  have hdig : t.digits < M64 := by
    have hm : M64 = 18446744073709551616 := rfl
    omega
  have hB : ∀ c ∈ b32encode t.secret,
      (c == '&') = false ∧ c ≠ '%' ∧ c ≠ '+' := by
    intro c hc
    rw [b32encode, List.mem_map] at hc
    obtain ⟨v, hv, rfl⟩ := hc
    exact b32chr_amp v
      (encVals_lt t.secret.length t.secret (le_refl _) hbytes v hv)
  have hD : ∀ c ∈ natDigitsAux (t.digits + 1) t.digits,
      (c == '&') = false ∧ c ≠ '%' ∧ c ≠ '+' := by
    intro c hc
    exact digit_amp c
      (natDigitsAux_digits (t.digits + 1) t.digits (by omega) c hc)
  have hN := algName_amp t.algorithm
  have hqB : queryDecodeL (b32encode t.secret) = b32encode t.secret :=
    queryDecodeL_id _ (fun c hc => (hB c hc).2)
  have hqD : queryDecodeL (natDigitsAux (t.digits + 1) t.digits) =
      natDigitsAux (t.digits + 1) t.digits :=
    queryDecodeL_id _ (fun c hc => (hD c hc).2)
  have hqN : queryDecodeL t.algorithm.name.data = t.algorithm.name.data :=
    queryDecodeL_id _ (fun c hc => (hN c hc).2)
  have hne : ¬ (t.secret = []) := by
    intro h0
    rw [h0] at hsec
    simp at hsec
  have hAs := pctEnc_flat_safe t.account_name.data
  rcases hI : t.issuer with _ | i
  · have hP : ∀ c ∈ t.account_name.data.flatMap pctEncodeChar,
        (c != '?') = true := fun c hc => ne_to_bne (hAs c hc).2.2.1
    have hP1 : ∀ c ∈ t.account_name.data.flatMap pctEncodeChar,
        (c == '/') = false := fun c hc => (hAs c hc).2.1
    have hP2 : ∀ c ∈ t.account_name.data.flatMap pctEncodeChar,
        (c == ':') = false := fun c hc => (hAs c hc).1
    have hQP := queryPairs_kv3 (b32encode t.secret)
      (natDigitsAux (t.digits + 1) t.digits) t.algorithm.name.data hB hD hN
    rw [hqB, hqD, hqN] at hQP
    have hf1 : applyParam ⟨.SHA1, 6, 30, [], none⟩
        ("secret", String.mk (b32encode t.secret)) =
        .ok ⟨.SHA1, 6, 30, t.secret, none⟩ := by
      rw [applyParam_secret, b32_decode_encode t.secret hbytes]
    have hf2 : applyParam ⟨.SHA1, 6, 30, t.secret, none⟩
        ("digits", String.mk (natDigitsAux (t.digits + 1) t.digits)) =
        .ok ⟨.SHA1, t.digits, 30, t.secret, none⟩ := by
      rw [applyParam_digits]
      rw [show String.mk (natDigitsAux (t.digits + 1) t.digits) =
        natToStr t.digits from rfl]
      rw [parseNat64_natToStr t.digits hdig]
    have hf3 : applyParam ⟨.SHA1, t.digits, 30, t.secret, none⟩
        ("algorithm", String.mk t.algorithm.name.data) =
        .ok ⟨t.algorithm, t.digits, 30, t.secret, none⟩ := by
      rw [show String.mk t.algorithm.name.data = t.algorithm.name from rfl]
      rw [applyParam_algorithm_name]
    have hfold : foldParams
        [("secret", String.mk (b32encode t.secret)),
         ("digits", String.mk (natDigitsAux (t.digits + 1) t.digits)),
         ("algorithm", String.mk t.algorithm.name.data)]
        ⟨.SHA1, 6, 30, [], none⟩ =
        .ok ⟨t.algorithm, t.digits, 30, t.secret, none⟩ := by
      simp only [foldParams, hf1, hf2, hf3]
    refine ⟨⟨t.algorithm, t.digits, 1, 30, t.secret, t.account_name, none⟩,
      ?_, rfl, rfl, rfl, rfl⟩
    rw [get_url_data_none t hI]
    have hstep1 : TOTP.from_url (String.mk ("otpauth://totp/".data ++
        ((t.account_name.data.flatMap pctEncodeChar) ++ '?' ::
          (("secret".data ++ '=' :: b32encode t.secret) ++ '&' ::
           (("digits".data ++ '=' :: natDigitsAux (t.digits + 1) t.digits) ++
            '&' :: ("algorithm".data ++ '=' :: t.algorithm.name.data)))))) =
        some (TOTP.from_url_body ⟨"otpauth", some "totp",
          String.mk ('/' :: (t.account_name.data.flatMap pctEncodeChar)),
          queryPairs (("secret".data ++ '=' :: b32encode t.secret) ++ '&' ::
           (("digits".data ++ '=' :: natDigitsAux (t.digits + 1) t.digits) ++
            '&' :: ("algorithm".data ++ '=' :: t.algorithm.name.data)))⟩) := by
      simp only [TOTP.from_url]
      rw [parseUrl_otpauth _ _ hP]
      rfl
    rw [hstep1]
    rw [from_url_body_eval _ _ hP1 hP2]
    rw [pctDecode_encode t.account_name.data hacc]
    rw [hQP, hfold]
    show some (if t.secret = [] then (Except.error (Error.Secret "") :
        Except Error TOTP)
      else TOTP.new t.algorithm t.digits 1 30 t.secret
        (String.mk t.account_name.data) none) = _
    rw [if_neg hne]
    rw [new_ok t.algorithm t.digits 1 30 t.secret
      (String.mk t.account_name.data) none h6 h8 hsec haccc
      (fun j hj => by cases hj)]
  · rw [hI] at hiss
    obtain ⟨hich, hico⟩ := hiss
    have hIs := pctEnc_flat_safe i.data
    have hP : ∀ c ∈ (i.data.flatMap pctEncodeChar) ++ ':' ::
        (t.account_name.data.flatMap pctEncodeChar), (c != '?') = true := by
      intro c hc
      rw [List.mem_append] at hc
      rcases hc with hc | hc
      · exact ne_to_bne (hIs c hc).2.2.1
      rw [List.mem_cons] at hc
      rcases hc with rfl | hc
      · decide
      · exact ne_to_bne (hAs c hc).2.2.1
    have hI1 : ∀ c ∈ i.data.flatMap pctEncodeChar, (c == '/') = false :=
      fun c hc => (hIs c hc).2.1
    have hI2 : ∀ c ∈ i.data.flatMap pctEncodeChar, (c == ':') = false :=
      fun c hc => (hIs c hc).1
    have hA1 : ∀ c ∈ t.account_name.data.flatMap pctEncodeChar,
        (c == '/') = false := fun c hc => (hAs c hc).2.1
    have hA2 : ∀ c ∈ t.account_name.data.flatMap pctEncodeChar,
        (c == ':') = false := fun c hc => (hAs c hc).1
    have hIv : ∀ c ∈ i.data.flatMap pctEncodeChar, (c == '&') = false :=
      fun c hc => (hIs c hc).2.2.2.1
    have hqI : queryDecodeL (i.data.flatMap pctEncodeChar) = i.data :=
      queryDecode_encode i.data hich
    have hQP := queryPairs_kv4 (i.data.flatMap pctEncodeChar)
      (b32encode t.secret) (natDigitsAux (t.digits + 1) t.digits)
      t.algorithm.name.data hIv hB hD hN
    rw [hqB, hqD, hqN, hqI] at hQP
    have hf0 : applyParam ⟨.SHA1, 6, 30, [], some (String.mk i.data)⟩
        ("issuer", String.mk i.data) =
        .ok ⟨.SHA1, 6, 30, [], some (String.mk i.data)⟩ :=
      applyParam_issuer_eq _ _ rfl
    have hf1 : applyParam ⟨.SHA1, 6, 30, [], some (String.mk i.data)⟩
        ("secret", String.mk (b32encode t.secret)) =
        .ok ⟨.SHA1, 6, 30, t.secret, some (String.mk i.data)⟩ := by
      rw [applyParam_secret, b32_decode_encode t.secret hbytes]
    have hf2 : applyParam ⟨.SHA1, 6, 30, t.secret, some (String.mk i.data)⟩
        ("digits", String.mk (natDigitsAux (t.digits + 1) t.digits)) =
        .ok ⟨.SHA1, t.digits, 30, t.secret, some (String.mk i.data)⟩ := by
      rw [applyParam_digits]
      rw [show String.mk (natDigitsAux (t.digits + 1) t.digits) =
        natToStr t.digits from rfl]
      rw [parseNat64_natToStr t.digits hdig]
    have hf3 : applyParam
        ⟨.SHA1, t.digits, 30, t.secret, some (String.mk i.data)⟩
        ("algorithm", String.mk t.algorithm.name.data) =
        .ok ⟨t.algorithm, t.digits, 30, t.secret,
          some (String.mk i.data)⟩ := by
      rw [show String.mk t.algorithm.name.data = t.algorithm.name from rfl]
      rw [applyParam_algorithm_name]
    have hfold : foldParams
        (("issuer", String.mk i.data) ::
         [("secret", String.mk (b32encode t.secret)),
          ("digits", String.mk (natDigitsAux (t.digits + 1) t.digits)),
          ("algorithm", String.mk t.algorithm.name.data)])
        ⟨.SHA1, 6, 30, [], some (String.mk i.data)⟩ =
        .ok ⟨t.algorithm, t.digits, 30, t.secret,
          some (String.mk i.data)⟩ := by
      simp only [foldParams, hf0, hf1, hf2, hf3]
    refine ⟨⟨t.algorithm, t.digits, 1, 30, t.secret, t.account_name,
      some i⟩, ?_, rfl, rfl, rfl, rfl⟩
    rw [get_url_data_some t i hI]
    have hstep1 : TOTP.from_url (String.mk ("otpauth://totp/".data ++
        (((i.data.flatMap pctEncodeChar) ++ ':' ::
          (t.account_name.data.flatMap pctEncodeChar)) ++ '?' ::
          (("issuer".data ++ '=' :: (i.data.flatMap pctEncodeChar)) ++ '&' ::
           (("secret".data ++ '=' :: b32encode t.secret) ++ '&' ::
            (("digits".data ++ '=' ::
              natDigitsAux (t.digits + 1) t.digits) ++
             '&' :: ("algorithm".data ++ '=' ::
               t.algorithm.name.data))))))) =
        some (TOTP.from_url_body ⟨"otpauth", some "totp",
          String.mk ('/' :: ((i.data.flatMap pctEncodeChar) ++ ':' ::
            (t.account_name.data.flatMap pctEncodeChar))),
          queryPairs (("issuer".data ++ '=' ::
             (i.data.flatMap pctEncodeChar)) ++ '&' ::
           (("secret".data ++ '=' :: b32encode t.secret) ++ '&' ::
            (("digits".data ++ '=' ::
              natDigitsAux (t.digits + 1) t.digits) ++
             '&' :: ("algorithm".data ++ '=' ::
               t.algorithm.name.data))))⟩) := by
      simp only [TOTP.from_url]
      rw [parseUrl_otpauth _ _ hP]
      rfl
    rw [hstep1]
    rw [from_url_body_eval_iss2 _ _ i.data t.account_name.data _
      hI1 hI2 hA1 hA2 (pctDecode_encode i.data hich)
      (pctDecode_encode t.account_name.data hacc)]
    rw [hQP, hfold]
    show some (if t.secret = [] then (Except.error (Error.Secret "") :
        Except Error TOTP)
      else TOTP.new t.algorithm t.digits 1 30 t.secret
        (String.mk t.account_name.data) (some (String.mk i.data))) = _
    rw [if_neg hne]
    rw [new_ok t.algorithm t.digits 1 30 t.secret
      (String.mk t.account_name.data) (some (String.mk i.data)) h6 h8 hsec
      haccc (fun j hj => by
        rw [show j = String.mk i.data from (Option.some_inj.mp hj).symm]
        exact hico)]
theorem claim_C4_witness :
    ((6:Nat) ≤ 6 ∧ (6:Nat) ≤ 8 ∧
     16 ≤ (List.replicate 16 (65:Nat)).length ∧
     (∀ b ∈ List.replicate 16 (65:Nat), b < 256) ∧
     (∀ c ∈ "alice".data, c.toNat < 128) ∧
     "alice".data.contains ':' = false ∧
     (match (some "ACME" : Option String) with
      | some i => (∀ c ∈ i.data, c.toNat < 128) ∧
                  i.data.contains ':' = false
      | none => True)) ∧
    (∃ t2 : TOTP, TOTP.from_url
        (⟨Algorithm.SHA1, 6, 0, 30, List.replicate 16 (65:Nat), "alice",
          some "ACME"⟩ : TOTP).get_url = some (.ok t2) ∧
      t2.secret = (⟨Algorithm.SHA1, 6, 0, 30, List.replicate 16 (65:Nat),
        "alice", some "ACME"⟩ : TOTP).secret ∧
      t2.algorithm = (⟨Algorithm.SHA1, 6, 0, 30, List.replicate 16 (65:Nat),
        "alice", some "ACME"⟩ : TOTP).algorithm ∧
      t2.digits = (⟨Algorithm.SHA1, 6, 0, 30, List.replicate 16 (65:Nat),
        "alice", some "ACME"⟩ : TOTP).digits ∧
      t2.skew = 1) :=
  ⟨by decide,
   claim_C4 ⟨Algorithm.SHA1, 6, 0, 30, List.replicate 16 (65:Nat), "alice",
     some "ACME"⟩ (by decide) (by decide) (by decide) (by decide) (by decide)
     (by decide) (by decide)⟩

end Totp
